import Mathlib

/-!
# bior: the message handlers of the Raft core (`raft/core/core_handle.go`)

A shallow embedding of `core_handle.go`.  The handlers are methods of `core`;
here they are functions from a `Core` value to the `Core` value after the call.
Messages handed to `c.send` are collected, in order, in `callback.sent`.

The handlers call methods that live in other files of the repository (the log
holder, the peer progress record, the read-only tracker and the role
transitions of `core.go`).  Those are supplied through the record `Deps`;
`specDeps` is their model from the specification, used to run the handlers on
concrete inputs.
-/

namespace Bior

/-! ## conf / proto -/

/-- The constant `conf.InvalidID`. -/
def InvalidID : Nat := 0

/-- The constant `conf.InvalidIndex`. -/
def InvalidIndex : Nat := 0

/-- The constant `conf.InvalidTerm`. -/
def InvalidTerm : Nat := 0

/-- Modulus of `uint64` arithmetic. -/
def u64 : Nat := 2 ^ 64

/-- The type `raftpd.MessageType`. -/
inductive MessageType where
  | MsgVoteRequest
  | MsgVoteResponse
  | MsgPreVoteRequest
  | MsgPreVoteResponse
  | MsgAppendRequest
  | MsgAppendResponse
  | MsgHeartbeatRequest
  | MsgHeartbeatResponse
  | MsgSnapshotRequest
  | MsgSnapshotResponse
  | MsgReadIndexRequest
  | MsgReadIndexResponse
  | MsgUnreachable
  deriving DecidableEq, Repr

/-- The type `raftpd.Entry`; `Data` is a byte string. -/
structure Entry where
  Index : Nat
  Term : Nat
  Data : List Nat
  deriving DecidableEq, Repr

/-- The type `raftpd.SnapshotMetadata`. -/
structure SnapshotMetadata where
  Index : Nat
  Term : Nat
  deriving DecidableEq, Repr

/-- The type `raftpd.Snapshot`. -/
structure Snapshot where
  Metadata : SnapshotMetadata
  Data : List Nat
  deriving DecidableEq, Repr

/-- The type `raftpd.Message`.  `Snapshot` is a pointer in the source, `none` is nil. -/
structure Message where
  MsgType : MessageType
  From : Nat
  To : Nat
  Term : Nat
  LogIndex : Nat
  LogTerm : Nat
  Index : Nat
  RejectHint : Nat
  Reject : Bool
  Context : List Nat
  Entries : List Entry
  Snapshot : Option Snapshot
  deriving DecidableEq, Repr

/-- A composite literal `raftpd.Message` with `MsgType` and `To` set: every other field
has its zero value. -/
def Message.mk0 (t : MessageType) (dest : Nat) : Message :=
  { MsgType := t, From := 0, To := dest, Term := 0, LogIndex := 0, LogTerm := 0,
    Index := 0, RejectHint := 0, Reject := false, Context := [], Entries := [],
    Snapshot := none }

/-! ## peer -/

/-- The type `peer.VoteState`. -/
inductive VoteState where
  | VotePending
  | VoteGranted
  | VoteReject
  deriving DecidableEq, Repr

/-- Replication state of a peer (spec §3, peer progress record). -/
inductive ProgressState where
  | Probe
  | Replicate
  | Snapshot
  deriving DecidableEq, Repr

/-- The type `peer.Node`: `ID`, `Matched`, `NextIdx` and `Vote` are the fields
`core_handle.go` reads; the others are those of the progress record of spec §3. -/
structure Node where
  ID : Nat
  Matched : Nat
  NextIdx : Nat
  Vote : VoteState
  state : ProgressState
  paused : Bool
  pendingSnapshotIndex : Nat
  deriving DecidableEq, Repr

/-- Modelled from the spec: `peer.Node.UpdateVoteState` is not in src.  §4.2:
"updateVoteState(rejected): set voteState to Granted or Rejected". -/
def Node.UpdateVoteState (n : Node) (rejected : Bool) : Node :=
  { n with Vote := if rejected then VoteState.VoteReject else VoteState.VoteGranted }

/-! ## log holder, read-only tracker, host callback -/

/-- Modelled from the spec: the log holder is not in src.  §3: entries
`{index, term, data}`, dense from a first index, with committed and applied
indices; the snapshot metadata covers what lies before the first index. -/
structure RaftLog where
  entries : List Entry
  committed : Nat
  applied : Nat
  snapshot : SnapshotMetadata
  deriving DecidableEq, Repr

/-- Modelled from the spec: a read-only request (§3): commit index at request,
requester, context and the set of acknowledging peers. -/
structure ReadRequest where
  index : Nat
  requester : Nat
  context : List Nat
  acks : List Nat
  deriving DecidableEq, Repr

/-- Modelled from the spec: the read-only tracker (§4.3), an ordered mapping
from context to request record. -/
structure ReadOnly where
  requests : List ReadRequest
  deriving DecidableEq, Repr

/-- The type `read.ReadState`. -/
structure ReadState where
  Index : Nat
  RequestCtx : List Nat
  deriving DecidableEq, Repr

/-- The host behind `c.callback` (§4.6): what it was handed so far by `send`,
`saveReadState` and `applySnapshot`, in call order, and what `readSnapshot`
returns (`none` is nil: the snapshot is being built). -/
structure Callback where
  sent : List Message
  readStates : List ReadState
  appliedSnapshots : List Snapshot
  snapshot : Option Snapshot
  deriving DecidableEq, Repr

/-! ## core -/

/-- The role of a node (`c.state`). -/
inductive Role where
  | RoleFollower
  | RolePrevCandidate
  | RoleCandidate
  | RoleLeader
  deriving DecidableEq, Repr

/-- The method `IsLeader` of the role. -/
def Role.IsLeader (r : Role) : Bool :=
  decide (r = Role.RoleLeader)

/-- The fields of `core` that `core_handle.go` reads or writes. -/
structure Core where
  id : Nat
  term : Nat
  vote : Nat
  leaderID : Nat
  state : Role
  timeElapsed : Int
  electionTick : Int
  maxSizePerMsg : Nat
  nodes : List Node
  log : RaftLog
  readOnly : ReadOnly
  callback : Callback
  deriving DecidableEq, Repr

/-- The methods called by `core_handle.go` whose code is in other files of the
repository: the log holder (`c.log`), the peer progress record, the read-only
tracker (`c.readOnly`) and the role transitions and helpers of `core.go`.  The
methods of `core` may abort (they call back into the handlers, which assert):
`none` is an aborted call. -/
structure Deps where
  /-- Method `c.log.FirstIndex()` -/
  FirstIndex : RaftLog → Nat
  /-- Method `c.log.LastIndex()` -/
  LastIndex : RaftLog → Nat
  /-- Method `c.log.Term(index)` -/
  Term : RaftLog → Nat → Nat
  /-- Method `c.log.IsUpToDate(lastIndex, lastTerm)` -/
  IsUpToDate : RaftLog → Nat → Nat → Bool
  /-- Method `c.log.TryAppend(prevIdx, prevTerm, entries)`: the log afterwards and the pair returned -/
  TryAppend : RaftLog → Nat → Nat → List Entry → RaftLog × Nat × Bool
  /-- Method `c.log.CommitTo(index)` -/
  CommitTo : RaftLog → Nat → RaftLog
  /-- Method `c.log.Slice(lo, hi)` -/
  Slice : RaftLog → Nat → Nat → List Entry
  /-- Method `node.IsPaused()` -/
  IsPaused : Node → Bool
  /-- Method `node.SendEntries(entries)` -/
  SendEntries : Node → List Entry → Node
  /-- Method `node.SendSnapshot(index)` -/
  SendSnapshot : Node → Nat → Node
  /-- Method `node.HandleAppendEntries(reject, index, hint)`: the node afterwards and the result -/
  HandleAppendEntries : Node → Bool → Nat → Nat → Node × Bool
  /-- Method `node.HandleSnapshot(reject, index, hint)` -/
  HandleSnapshot : Node → Bool → Nat → Nat → Node
  /-- Method `node.HandleUnreachable()` -/
  HandleUnreachable : Node → Node
  /-- Method `c.readOnly.AddRequest(index, from, context)` -/
  AddRequest : ReadOnly → Nat → Nat → List Nat → ReadOnly
  /-- Method `c.readOnly.ReceiveAck(from, context)`: the tracker afterwards and the ack count -/
  ReceiveAck : ReadOnly → Nat → List Nat → ReadOnly × Nat
  /-- Method `c.becomeFollower(term, leaderID)` -/
  becomeFollower : Core → Nat → Nat → Option Core
  /-- Method `c.backToFollower(term, leaderID)` -/
  backToFollower : Core → Nat → Nat → Option Core
  /-- Method `c.becomeLeader()` -/
  becomeLeader : Core → Option Core
  /-- Method `c.broadcastVictory()` -/
  broadcastVictory : Core → Option Core
  /-- Method `c.campaign()` -/
  campaign : Core → Option Core
  /-- Method `c.poll(index)` -/
  poll : Core → Nat → Option Core
  /-- Method `c.advanceReadOnly(context)` -/
  advanceReadOnly : Core → List Nat → Option Core
  /-- Method `c.ApplySnapshot(metadata)` -/
  ApplySnapshot : Core → SnapshotMetadata → Option Core

/-- Modelled from the spec: `c.log.CommitIndex()` is not in src; it reads the
committed index of the log (§3, §4.1). -/
def RaftLog.CommitIndex (l : RaftLog) : Nat :=
  l.committed

/-- Modelled from the spec: `core.quorum` is not in src.  §3: "quorum =
floor(N/2) + 1", `N` counting the peers in `c.nodes` and the node itself. -/
def Core.quorum (c : Core) : Nat :=
  (c.nodes.length + 1) / 2 + 1

/-- Modelled from the spec: `core.send` is not in src.  §4.6, §5: the message
is queued at the host, in the order produced.  It is recorded as the handler
built it. -/
def Core.send (c : Core) (msg : Message) : Core :=
  { c with callback := { c.callback with sent := c.callback.sent ++ [msg] } }

/-- Modelled from the spec: `core.getNodeByID` is not in src.  §9: "any pointer
to peer is a lookup by ID"; `none` is the nil pointer of an unknown peer. -/
def Core.getNodeByID (c : Core) (id : Nat) : Option Node :=
  c.nodes.find? (fun n => n.ID == id)

/-- Writing through the pointer returned by `getNodeByID id`: the first record
whose `ID` is `id` becomes `n`. -/
def setNode (id : Nat) (n : Node) : List Node → List Node
  | [] => []
  | x :: xs => if x.ID == id then n :: xs else x :: setNode id n xs

/-- The utility `utils.MinUint64`. -/
def MinUint64 (a b : Nat) : Nat :=
  if a < b then a else b

/-! ## core_handle.go -/

/-- The method `handlePreVote`. -/
def handlePreVote (d : Deps) (c : Core) (msg : Message) : Core :=
  let reply := Message.mk0 MessageType.MsgPreVoteResponse msg.From
  let reply :=
    if (c.leaderID ≠ InvalidID ∧ c.timeElapsed < c.electionTick) ∨
        (msg.Term < c.term) ∨
        ¬ (d.IsUpToDate c.log msg.LogIndex msg.LogTerm = true) then
      { reply with Reject := true, Term := c.term }
    else
      { reply with Reject := false, Term := msg.Term }
  c.send reply

/-- The method `handleVote`. -/
def handleVote (d : Deps) (c : Core) (msg : Message) : Core :=
  let reply := Message.mk0 MessageType.MsgVoteResponse msg.From
  if (c.vote = InvalidID ∨ c.vote = msg.From) ∧
      d.IsUpToDate c.log msg.LogIndex msg.LogTerm = true then
    let reply := { reply with Reject := false }
    let c := { c with vote := msg.From }
    c.send reply
  else
    let reply := { reply with Reject := true }
    c.send reply

/-- The method `voteStateCount`. -/
def voteStateCount (c : Core) (state : VoteState) : Nat :=
  (c.nodes.filter (fun n => n.Vote == state)).length

/-- The method `handleVoteResponse`.  `none`: the sender is no peer
(`getNodeByID` returns nil and `UpdateVoteState` dereferences it), or a
transition called aborts. -/
def handleVoteResponse (d : Deps) (c : Core) (msg : Message) : Option Core :=
  match c.getNodeByID msg.From with
  | none => none
  | some node =>
    let c := { c with nodes := setNode msg.From (node.UpdateVoteState msg.Reject) c.nodes }
    /- self has one -/
    let count := voteStateCount c VoteState.VoteGranted + 1
    if count ≥ c.quorum then
      if msg.MsgType = MessageType.MsgVoteResponse then
        (d.becomeLeader c).bind d.broadcastVictory
      else
        d.campaign c
    else
      let count := voteStateCount c VoteState.VoteReject
      if count ≥ c.quorum then
        d.backToFollower c msg.Term InvalidID
      else
        some c

/-- The method `sendHeartbeat`. -/
def sendHeartbeat (c : Core) (node : Node) (context : List Nat) : Core :=
  let msg := { Message.mk0 MessageType.MsgHeartbeatRequest node.ID with
    Index := MinUint64 node.Matched c.log.CommitIndex,
    Context := context }
  c.send msg

/-- The loop of `broadcastHeartbeatWithCtx`, from position `i` on. -/
def broadcastHeartbeatLoop (context : List Nat) : Nat → Nat → Core → Core
  | 0, _, c => c
  | k + 1, i, c =>
    match c.nodes[i]? with
    | none => c
    | some node => broadcastHeartbeatLoop context k (i + 1) (sendHeartbeat c node context)

/-- The method `broadcastHeartbeatWithCtx`. -/
def broadcastHeartbeatWithCtx (c : Core) (context : List Nat) : Core :=
  broadcastHeartbeatLoop context c.nodes.length 0 c

/-- The loop of `sendAppend` that cuts `entries` to the size limit: `i` is the
loop variable, `size` the running sum, `k` bounds the remaining iterations.
The sum is a `uint`; sizes of entries held in memory do not reach its modulus. -/
def sliceBySize (maxSize : Nat) (entries : List Entry) : Nat → Nat → Nat → List Entry
  | 0, _, _ => entries
  | k + 1, i, size =>
    match entries[i]? with
    | none => entries
    | some e =>
      let size := size + (16 + e.Data.length)
      if size > maxSize then entries.take i
      else sliceBySize maxSize entries k (i + 1) size

/-- The debug loop of `sendAppend`: consecutive entries have consecutive indices. -/
def sequences : List Entry → Bool
  | [] => true
  | [_] => true
  | a :: b :: rest => decide ((a.Index + 1) % u64 = b.Index) && sequences (b :: rest)

/-- The method `sendAppend`; `node` is `c.nodes[i]`.  `none`: an assertion fails. -/
def sendAppend (d : Deps) (c : Core) (i : Nat) (node : Node) : Option Core :=
  let logIndex := (node.NextIdx + u64 - 1) % u64
  let msg := { Message.mk0 MessageType.MsgAppendRequest node.ID with
    Index := c.log.CommitIndex,
    LogIndex := logIndex,
    LogTerm := d.Term c.log logIndex }
  let entries :=
    if d.LastIndex c.log ≥ node.NextIdx then
      let entries := d.Slice c.log node.NextIdx ((d.LastIndex c.log + 1) % u64)
      /- Starting from 1, to prevent the issue of unable to send data. -/
      sliceBySize c.maxSizePerMsg entries entries.length 1 0
    else
      []
  let msg := { msg with Entries := entries }
  if d.LastIndex c.log ≥ node.NextIdx ∧
      ¬ (entries.length = 0 ∨ (entries.head?.map (fun e => e.Index)) ≠ some InvalidIndex) then
    none
  else if sequences msg.Entries = false then
    none
  else if d.IsPaused node = true then
    none
  else
    let c := { c with nodes := c.nodes.set i (d.SendEntries node msg.Entries) }
    some (c.send msg)

/-- The method `sendSnapshot`; `node` is `c.nodes[i]`. -/
def sendSnapshot (d : Deps) (c : Core) (i : Nat) (node : Node) : Core :=
  match c.callback.snapshot with
  | none => c
  | some snapshot =>
    let c := { c with nodes := c.nodes.set i (d.SendSnapshot node snapshot.Metadata.Index) }
    let msg := { Message.mk0 MessageType.MsgSnapshotRequest node.ID with
      Snapshot := some snapshot }
    c.send msg

/-- The loop of `broadcastAppend`, from position `i` on. -/
def broadcastAppendLoop (d : Deps) (firstIndex : Nat) : Nat → Nat → Core → Option Core
  | 0, _, c => some c
  | k + 1, i, c =>
    match c.nodes[i]? with
    | none => some c
    | some node =>
      /- ignore paused node -/
      if d.IsPaused node = true then
        broadcastAppendLoop d firstIndex k (i + 1) c
      else if node.NextIdx ≥ firstIndex then
        (sendAppend d c i node).bind (broadcastAppendLoop d firstIndex k (i + 1))
      else
        broadcastAppendLoop d firstIndex k (i + 1) (sendSnapshot d c i node)

/-- The method `broadcastAppend`. -/
def broadcastAppend (d : Deps) (c : Core) : Option Core :=
  let firstIndex := d.FirstIndex c.log
  let lastIndex := d.LastIndex c.log
  if c.quorum ≤ 1 then
    d.poll c lastIndex
  else
    broadcastAppendLoop d firstIndex c.nodes.length 0 c

/-- The method `handleReadIndexRequest`.  `none`: the assertion fails. -/
def handleReadIndexRequest (d : Deps) (c : Core) (msg : Message) : Option Core :=
  if c.state.IsLeader = false then
    none
  else if d.Term c.log c.log.CommitIndex ≠ c.term then
    some c
  else
    let c := { c with readOnly := d.AddRequest c.readOnly c.log.CommitIndex msg.From msg.Context }
    if c.quorum > 1 then
      some (broadcastHeartbeatWithCtx c msg.Context)
    else
      d.advanceReadOnly c msg.Context

/-- The method `handleReadIndexResponse`. -/
def handleReadIndexResponse (c : Core) (msg : Message) : Core :=
  let readState : ReadState := { Index := msg.Index, RequestCtx := msg.Context }
  { c with callback := { c.callback with readStates := c.callback.readStates ++ [readState] } }

/-- The method `handleAppendEntries`. -/
def handleAppendEntries (d : Deps) (c : Core) (msg : Message) : Core :=
  let reply := Message.mk0 MessageType.MsgAppendResponse msg.From
  if c.log.CommitIndex > msg.LogIndex then
    let reply := { reply with
      Index := msg.LogIndex, RejectHint := c.log.CommitIndex, Reject := false }
    c.send reply
  else
    match d.TryAppend c.log msg.LogIndex msg.LogTerm msg.Entries with
    | (l, idx, true) =>
      let c := { c with log := d.CommitTo l (MinUint64 msg.Index idx) }
      let reply := { reply with Index := msg.LogIndex, RejectHint := idx, Reject := false }
      c.send reply
    | (l, idx, false) =>
      let c := { c with log := l }
      let reply := { reply with Index := msg.LogIndex, RejectHint := idx, Reject := true }
      c.send reply

/-- The method `handleAppendEntriesResponse`.  `none`: the sender is no peer,
or `poll` aborts. -/
def handleAppendEntriesResponse (d : Deps) (c : Core) (msg : Message) : Option Core :=
  match c.getNodeByID msg.From with
  | none => none
  | some node =>
    let r := d.HandleAppendEntries node msg.Reject msg.Index msg.RejectHint
    let c := { c with nodes := setNode msg.From r.1 c.nodes }
    if r.2 = true then d.poll c r.1.Matched else some c

/-- The method `tryRestore`.  `none`: the snapshot is nil and the assertion fails. -/
def tryRestore (d : Deps) (c : Core) (snapshot : Option Snapshot) : Option Bool :=
  match snapshot with
  | none => none
  | some snapshot =>
    if snapshot.Metadata.Index ≤ c.log.CommitIndex then
      some false
    else if d.Term c.log snapshot.Metadata.Index = snapshot.Metadata.Term then
      some false
    else
      some true

/-- The method `handleSnapshot`.  `none`: `tryRestore` or `ApplySnapshot` aborts. -/
def handleSnapshot (d : Deps) (c : Core) (msg : Message) : Option Core :=
  let reply := { Message.mk0 MessageType.MsgSnapshotResponse msg.From with Reject := false }
  match msg.Snapshot, tryRestore d c msg.Snapshot with
  | some snapshot, some true =>
    let applied := c.callback.appliedSnapshots ++ [snapshot]
    let c := { c with callback := { c.callback with appliedSnapshots := applied } }
    (d.ApplySnapshot c snapshot.Metadata).bind fun c =>
      let reply := { reply with
        Index := snapshot.Metadata.Index, RejectHint := d.LastIndex c.log }
      some (c.send reply)
  | some snapshot, some false =>
    let reply := { reply with
      Index := snapshot.Metadata.Index, RejectHint := c.log.CommitIndex }
    some (c.send reply)
  | _, _ => none

/-- The method `handleSnapshotResponse`.  `none`: the sender is no peer. -/
def handleSnapshotResponse (d : Deps) (c : Core) (msg : Message) : Option Core :=
  match c.getNodeByID msg.From with
  | none => none
  | some node =>
    let node := d.HandleSnapshot node msg.Reject msg.Index msg.RejectHint
    some { c with nodes := setNode msg.From node c.nodes }

/-- The method `handleUnreachable`.  `none`: the sender is no peer. -/
def handleUnreachable (d : Deps) (c : Core) (msg : Message) : Option Core :=
  match c.getNodeByID msg.From with
  | none => none
  | some node => some { c with nodes := setNode msg.From (d.HandleUnreachable node) c.nodes }

/-- The method `handleHeartbeat`. -/
def handleHeartbeat (d : Deps) (c : Core) (msg : Message) : Core :=
  let c := { c with log := d.CommitTo c.log msg.Index }
  let reply := { Message.mk0 MessageType.MsgHeartbeatResponse msg.From with
    Reject := false, Context := msg.Context }
  c.send reply

/-- The method `handleHeartbeatResponse`. -/
def handleHeartbeatResponse (d : Deps) (c : Core) (msg : Message) : Option Core :=
  let r := d.ReceiveAck c.readOnly msg.From msg.Context
  let c := { c with readOnly := r.1 }
  if r.2 < c.quorum then some c else d.advanceReadOnly c msg.Context

/-- The method `stepLeader`. -/
def stepLeader (d : Deps) (c : Core) (msg : Message) : Option Core :=
  match msg.MsgType with
  | MessageType.MsgHeartbeatResponse => handleHeartbeatResponse d c msg
  | MessageType.MsgSnapshotResponse => handleSnapshotResponse d c msg
  | MessageType.MsgAppendResponse => handleAppendEntriesResponse d c msg
  | MessageType.MsgUnreachable => handleUnreachable d c msg
  | MessageType.MsgReadIndexRequest => handleReadIndexRequest d c msg
  | _ => some c

/-- The method `stepFollower`. -/
def stepFollower (d : Deps) (c : Core) (msg : Message) : Option Core :=
  match msg.MsgType with
  | MessageType.MsgReadIndexResponse =>
    (d.becomeFollower c c.term msg.From).bind fun c => some (handleReadIndexResponse c msg)
  | MessageType.MsgAppendRequest =>
    (d.becomeFollower c c.term msg.From).bind fun c => some (handleAppendEntries d c msg)
  | MessageType.MsgHeartbeatRequest =>
    (d.becomeFollower c c.term msg.From).bind fun c => some (handleHeartbeat d c msg)
  | MessageType.MsgSnapshotRequest =>
    (d.becomeFollower c c.term msg.From).bind fun c => handleSnapshot d c msg
  | _ => some c

/-- The method `stepCandidate`. -/
def stepCandidate (d : Deps) (c : Core) (msg : Message) : Option Core :=
  match msg.MsgType with
  | MessageType.MsgPreVoteResponse =>
    if c.state = Role.RolePrevCandidate then handleVoteResponse d c msg else some c
  | MessageType.MsgVoteResponse =>
    if c.state = Role.RoleCandidate then handleVoteResponse d c msg else some c
  | MessageType.MsgAppendRequest =>
    (d.backToFollower c msg.Term msg.From).bind fun c => some (handleAppendEntries d c msg)
  | MessageType.MsgHeartbeatRequest =>
    (d.backToFollower c msg.Term msg.From).bind fun c => some (handleHeartbeat d c msg)
  | MessageType.MsgSnapshotRequest =>
    (d.backToFollower c msg.Term msg.From).bind fun c => handleSnapshot d c msg
  | _ => some c

/-- The method `dispatch`. -/
def dispatch (d : Deps) (c : Core) (msg : Message) : Option Core :=
  match c.state with
  | Role.RoleLeader => stepLeader d c msg
  | Role.RoleFollower => stepFollower d c msg
  | Role.RolePrevCandidate => stepCandidate d c msg
  | Role.RoleCandidate => stepCandidate d c msg

/-! ## The methods of the other files, modelled from the specification -/

namespace Spec

/-- Modelled from the spec: `LogHolder.FirstIndex` is not in src.  §3: "entries
before first-index are covered by a snapshot". -/
def FirstIndex (l : RaftLog) : Nat :=
  l.snapshot.Index + 1

/-- Modelled from the spec: `LogHolder.LastIndex` is not in src.  §3: indices
are dense from the first index on. -/
def LastIndex (l : RaftLog) : Nat :=
  l.snapshot.Index + l.entries.length

/-- Modelled from the spec: `LogHolder.Term` is not in src.  §4.1:
"term(index) -> u64 (0 if compacted away or unknown)". -/
def Term (l : RaftLog) (index : Nat) : Nat :=
  match l.entries.find? (fun e => e.Index == index) with
  | some e => e.Term
  | none => 0

/-- Modelled from the spec: `LogHolder.IsUpToDate` is not in src.  §4.1: true
iff `lt > lastTerm` or (`lt == lastTerm` and `li ≥ lastIndex`). -/
def IsUpToDate (l : RaftLog) (li lt : Nat) : Bool :=
  let lastTerm := Term l (LastIndex l)
  decide (lt > lastTerm) || (decide (lt = lastTerm) && decide (li ≥ LastIndex l))

/-- The first of `entries` whose term differs from the term the log has at
its index. -/
def conflict (l : RaftLog) (entries : List Entry) : Option Entry :=
  entries.find? (fun e => Term l e.Index != e.Term)

/-- Modelled from the spec: `LogHolder.TryAppend` is not in src.  §4.1:
succeeds iff the entry at `prevIdx` has term `prevTerm`; then the conflicting
suffix is truncated, the new entries are appended and the last index of the
resulting log is returned.  On a mismatch the hint is the last index known to
match, taken here to be the committed index. -/
def TryAppend (l : RaftLog) (prevIdx prevTerm : Nat) (entries : List Entry) :
    RaftLog × Nat × Bool :=
  if Term l prevIdx = prevTerm then
    match conflict l entries with
    | none => (l, LastIndex l, true)
    | some e =>
      let kept := l.entries.filter (fun x => decide (x.Index < e.Index))
      let added := entries.filter (fun x => decide (e.Index ≤ x.Index))
      let l1 := { l with entries := kept ++ added }
      (l1, LastIndex l1, true)
  else
    (l, l.committed, false)

/-- Modelled from the spec: `LogHolder.CommitTo` is not in src.  §4.1:
"advances committed only forward and only up to lastIndex". -/
def CommitTo (l : RaftLog) (index : Nat) : RaftLog :=
  { l with committed := max l.committed (min index (LastIndex l)) }

/-- Modelled from the spec: `LogHolder.Slice` is not in src.  §4.1:
"slice(lo, hi) -> entries", the entries with `lo ≤ index < hi`. -/
def Slice (l : RaftLog) (lo hi : Nat) : List Entry :=
  l.entries.filter (fun e => decide (lo ≤ e.Index) && decide (e.Index < hi))

/-- Modelled from the spec: `Node.IsPaused` is not in src.  §4.2: "true when in
Snapshot, or in Probe with an outstanding unreplied append". -/
def IsPaused (n : Node) : Bool :=
  decide (n.state = ProgressState.Snapshot) ||
    (decide (n.state = ProgressState.Probe) && n.paused)

/-- Modelled from the spec: `Node.SendEntries` is not in src.  §4.2: "set next =
max(next, lastSentIndex+1), move to Replicate, mark paused if entries
non-empty". -/
def SendEntries (n : Node) (entries : List Entry) : Node :=
  match entries.getLast? with
  | none => { n with state := ProgressState.Replicate }
  | some e =>
    { n with NextIdx := max n.NextIdx (e.Index + 1), state := ProgressState.Replicate,
             paused := true }

/-- Modelled from the spec: `Node.SendSnapshot` is not in src.  §4.2: "move to
Snapshot, set pendingSnapshotIndex = index, pause replication". -/
def SendSnapshot (n : Node) (index : Nat) : Node :=
  { n with state := ProgressState.Snapshot, pendingSnapshotIndex := index, paused := true }

/-- Modelled from the spec: `Node.HandleAppendEntries` is not in src.  §4.2: if
not rejected, `matched = max(matched, index)`, `next = matched + 1`, Replicate,
unpause, true; if rejected, `next = max(1, min(hint+1, next-1))`, Probe,
unpause, false. -/
def HandleAppendEntries (n : Node) (reject : Bool) (index hint : Nat) : Node × Bool :=
  if reject = false then
    let matched := max n.Matched index
    ({ n with Matched := matched, NextIdx := matched + 1, state := ProgressState.Replicate,
              paused := false }, true)
  else
    ({ n with NextIdx := max 1 (min (hint + 1) (n.NextIdx - 1)), state := ProgressState.Probe,
              paused := false }, false)

/-- Modelled from the spec: `Node.HandleSnapshot` is not in src.  §4.2: on
accept, `matched = pendingSnapshotIndex`, `next = matched+1`; on reject,
`next = hint+1`; both clear `pendingSnapshotIndex` and move to Probe. -/
def HandleSnapshot (n : Node) (reject : Bool) (_index hint : Nat) : Node :=
  if reject = false then
    { n with Matched := n.pendingSnapshotIndex, NextIdx := n.pendingSnapshotIndex + 1,
             pendingSnapshotIndex := 0, state := ProgressState.Probe }
  else
    { n with NextIdx := hint + 1, pendingSnapshotIndex := 0, state := ProgressState.Probe }

/-- Modelled from the spec: `Node.HandleUnreachable` is not in src.  §4.2: "if in
Replicate, revert to Probe and reset next = matched+1; pause". -/
def HandleUnreachable (n : Node) : Node :=
  if n.state = ProgressState.Replicate then
    { n with state := ProgressState.Probe, NextIdx := n.Matched + 1, paused := true }
  else
    { n with paused := true }

/-- Modelled from the spec: `ReadOnly.AddRequest` is not in src.  §4.3: "append;
if context already present, overwrite the from and refresh acks = ∅". -/
def AddRequest (r : ReadOnly) (index from_ : Nat) (context : List Nat) : ReadOnly :=
  if r.requests.any (fun q => q.context == context) then
    let requests := r.requests.map fun q =>
      if q.context == context then { q with requester := from_, acks := [] } else q
    { requests := requests }
  else
    let q : ReadRequest := { index := index, requester := from_, context := context, acks := [] }
    { requests := r.requests ++ [q] }

/-- Modelled from the spec: `ReadOnly.ReceiveAck` is not in src.  §4.3: "adds peer
to the acks set for that context and returns the size of the acks set". -/
def ReceiveAck (r : ReadOnly) (peerID : Nat) (context : List Nat) : ReadOnly × Nat :=
  let requests := r.requests.map fun q =>
    if q.context == context ∧ ¬ peerID ∈ q.acks then { q with acks := q.acks ++ [peerID] }
    else q
  ({ requests := requests },
    match requests.find? (fun q => q.context == context) with
    | some q => q.acks.length
    | none => 0)

/-- Modelled from the spec: `core.becomeFollower` is not in src.  §4.4: "role =
Follower, adopt term if greater (clear vote), set leaderID, reset timers". -/
def becomeFollower (c : Core) (term leaderID : Nat) : Core :=
  let c := if term > c.term then { c with term := term, vote := InvalidID } else c
  { c with state := Role.RoleFollower, leaderID := leaderID, timeElapsed := 0 }

/-- Modelled from the spec: `core.becomeCandidate` is not in src.  §4.4: "bump
term, set vote = self, role = Candidate; broadcast VoteRequest". -/
def becomeCandidate (c : Core) : Core :=
  let c := { c with term := c.term + 1, vote := c.id, state := Role.RoleCandidate }
  c.nodes.foldl (fun c n =>
    c.send { Message.mk0 MessageType.MsgVoteRequest n.ID with
      Term := c.term, LogIndex := LastIndex c.log, LogTerm := Term c.log (LastIndex c.log) }) c

/-- Modelled from the spec: `core.becomePreCandidate` is not in src.  §4.4: "role
= PreCandidate; do NOT bump term or vote; reset peer voteStates; broadcast
PreVoteRequest with term+1, own (lastIndex, lastTerm).  If sole node, directly
proceed to becomeCandidate". -/
def becomePreCandidate (c : Core) : Core :=
  let nodes := c.nodes.map fun n => { n with Vote := VoteState.VotePending }
  let c := { c with state := Role.RolePrevCandidate, nodes := nodes }
  if c.nodes.length = 0 then becomeCandidate c
  else
    c.nodes.foldl (fun c n =>
      c.send { Message.mk0 MessageType.MsgPreVoteRequest n.ID with
        Term := c.term + 1, LogIndex := LastIndex c.log,
        LogTerm := Term c.log (LastIndex c.log) }) c

/-- Modelled from the spec: `core.campaign` is not in src.  §4.4: with PreVote
enabled the campaign enters PreCandidate; "on quorum-Granted in PreCandidate,
proceed to Candidate". -/
def campaign (c : Core) : Core :=
  if c.state = Role.RolePrevCandidate then becomeCandidate c else becomePreCandidate c

/-- Modelled from the spec: `core.becomeLeader` is not in src.  §4.4: "role =
Leader, leaderID = self, reset each peer progress to matched=0,
next=lastIndex+1, state=Probe, append a no-op entry at the new term". -/
def becomeLeader (c : Core) : Core :=
  let next := LastIndex c.log + 1
  let nodes := c.nodes.map fun n =>
    { n with Matched := 0, NextIdx := next, state := ProgressState.Probe }
  let c := { c with state := Role.RoleLeader, leaderID := c.id, nodes := nodes }
  let noop : Entry := { Index := next, Term := c.term, Data := [] }
  { c with log := { c.log with entries := c.log.entries ++ [noop] } }

/-- Modelled from the spec: `core.ApplySnapshot` is not in src.  §4.1, §4.5:
"update log meta" with the index and term of the snapshot; the log then starts
after the snapshot, which is committed. -/
def ApplySnapshot (c : Core) (m : SnapshotMetadata) : Core :=
  { c with log := { entries := [], committed := m.Index, applied := m.Index, snapshot := m } }

/-- Modelled from the spec: the commit index of `core.poll`, §4.5: the largest `N`
with `N > commitIndex`, `log.term(N) == currentTerm` and the peers with
`matched ≥ N`, plus one, reaching the quorum; the search runs down from `n`. -/
def pollIndex (c : Core) : Nat → Option Nat
  | 0 => none
  | n + 1 =>
    if n + 1 > c.log.CommitIndex ∧ Term c.log (n + 1) = c.term ∧
        (c.nodes.filter (fun p => decide (p.Matched ≥ n + 1))).length + 1 ≥ c.quorum then
      some (n + 1)
    else
      pollIndex c n

/-- Modelled from the spec: `ReadOnly.Advance` is not in src.  §4.3: "consumes
all requests up to and including context in insertion order"; the released
requests and the tracker afterwards. -/
def Advance (r : ReadOnly) (context : List Nat) : List ReadRequest × ReadOnly :=
  if r.requests.any (fun q => q.context == context) then
    let released := r.requests.takeWhile (fun q => q.context != context)
    let rest := r.requests.dropWhile (fun q => q.context != context)
    (released ++ rest.take 1, { requests := rest.drop 1 })
  else
    ([], r)

/-- Modelled from the spec: `core.advanceReadOnly` is not in src.  §4.5: "for
each released request, deliver a ReadStateNotice(index, ctx) to the host for
the local requester, or respond ReadIndexResponse to the remote requester". -/
def advanceReadOnly (c : Core) (context : List Nat) : Core :=
  let r := Advance c.readOnly context
  let c := { c with readOnly := r.2 }
  r.1.foldl (fun c q =>
    if q.requester = c.id ∨ q.requester = InvalidID then
      let readState : ReadState := { Index := q.index, RequestCtx := q.context }
      { c with callback := { c.callback with readStates := c.callback.readStates ++ [readState] } }
    else
      c.send { Message.mk0 MessageType.MsgReadIndexResponse q.requester with
        Index := q.index, Context := q.context }) c

/-- The methods of the log holder, the peer record and the read-only tracker
as modelled above, with the role transitions that do not call back into
`core_handle.go`; `poll`, `broadcastVictory` are completed in `specDeps`. -/
def leafDeps : Deps :=
  { FirstIndex := FirstIndex, LastIndex := LastIndex, Term := Term, IsUpToDate := IsUpToDate,
    TryAppend := TryAppend, CommitTo := CommitTo, Slice := Slice, IsPaused := IsPaused,
    SendEntries := SendEntries, SendSnapshot := SendSnapshot,
    HandleAppendEntries := HandleAppendEntries, HandleSnapshot := HandleSnapshot,
    HandleUnreachable := HandleUnreachable, AddRequest := AddRequest,
    ReceiveAck := ReceiveAck,
    becomeFollower := fun c t l => some (becomeFollower c t l),
    backToFollower := fun c t l => some (becomeFollower c t l),
    becomeLeader := fun c => some (becomeLeader c),
    broadcastVictory := fun c => some c,
    campaign := fun c => some (campaign c),
    poll := fun c _ => some c,
    advanceReadOnly := fun c ctx => some (advanceReadOnly c ctx),
    ApplySnapshot := fun c m => some (ApplySnapshot c m) }

/-- Modelled from the spec: `core.poll` is not in src.  §4.5: recompute the
commit index and, "if it advances, broadcast append to propagate the new
commit".  The nested `poll` of a singleton cluster finds nothing to advance. -/
def poll (c : Core) (_index : Nat) : Option Core :=
  match pollIndex c (LastIndex c.log) with
  | none => some c
  | some n => broadcastAppend leafDeps { c with log := { c.log with committed := n } }

end Spec

/-- The methods of the other files as the specification describes them.
`backToFollower` is the fall back to Follower of §4.4, `broadcastVictory` the
"then broadcast append" that ends the transition to Leader. -/
def specDeps : Deps :=
  { Spec.leafDeps with
    poll := Spec.poll
    broadcastVictory := fun c => broadcastAppend { Spec.leafDeps with poll := Spec.poll } c }

/-- A run of `handleVote` calls on the requests `msgs`, in order, with nothing
in between: the term does not change during the run. -/
def handleVotes (d : Deps) : Core → List Message → Core
  | c, [] => c
  | c, m :: ms => handleVotes d (handleVote d c m) ms

/-! ## Concrete states and messages -/

/-- A peer record with the given `ID`, as after construction. -/
def exNode (id : Nat) : Node :=
  { ID := id, Matched := 0, NextIdx := 1, Vote := VoteState.VotePending,
    state := ProgressState.Probe, paused := false, pendingSnapshotIndex := 0 }

/-- An empty log. -/
def exLog : RaftLog :=
  { entries := [], committed := 0, applied := 0, snapshot := { Index := 0, Term := 0 } }

/-- Node 1 of the cluster of nodes 1, 2, 3 at term 1, a follower that has not voted
and knows no leader, 3 ticks after its last contact. -/
def exCore : Core :=
  { id := 1, term := 1, vote := InvalidID, leaderID := InvalidID, state := Role.RoleFollower,
    timeElapsed := 3, electionTick := 10, maxSizePerMsg := 1024,
    nodes := [exNode 2, exNode 3], log := exLog, readOnly := { requests := [] },
    callback := { sent := [], readStates := [], appliedSnapshots := [], snapshot := none } }

/-- A message of type `t` from node `sender` to node 1 at term `term`. -/
def exMsg (t : MessageType) (sender term : Nat) : Message :=
  { Message.mk0 t 1 with From := sender, Term := term }

/-- The first two statements of `handleVoteResponse`: `node` is the record
`c.getNodeByID(msg.From)` points to, and `node.UpdateVoteState(msg.Reject)`
writes through the pointer. -/
def recordVote (c : Core) (msg : Message) (node : Node) : Core :=
  { c with nodes := setNode msg.From (node.UpdateVoteState msg.Reject) c.nodes }

/-- A run of `dispatch` on the messages `msgs`, in order; `none` when a call aborts. -/
def dispatchAll (d : Deps) : Core → List Message → Option Core
  | c, [] => some c
  | c, m :: ms => (dispatch d c m).bind fun c => dispatchAll d c ms

/-- Node 1 of the cluster of nodes 1, 2, 3 as pre-candidate at term 1. -/
def exPreCandidate : Core :=
  { exCore with state := Role.RolePrevCandidate }

/-- Node 1 of the cluster of nodes 1 to 5 as candidate at term 2, having voted
for itself. -/
def exCandidate5 : Core :=
  { exCore with state := Role.RoleCandidate, term := 2, vote := 1,
                nodes := [exNode 2, exNode 3, exNode 4, exNode 5] }

/-- The heartbeat that `sendHeartbeat` builds for the peer `p` (spec §4.6:
"index = min(peer.matched, commitIndex) and supplied context"). -/
def heartbeatFor (c : Core) (context : List Nat) (p : Node) : Message :=
  { Message.mk0 MessageType.MsgHeartbeatRequest p.ID with
    Index := min p.Matched c.log.CommitIndex, Context := context }

/-- What `broadcastAppend` is to send for the peer `p`, in the words of spec
§4.6: nothing when `p` is paused; one `AppendRequest` to `p` when `p` is not
paused and `next ≥ firstIndex`; else a snapshot, which is one
`SnapshotRequest` to `p` carrying the snapshot of the host, or nothing when
the host has none at hand. -/
def broadcastSends (d : Deps) (firstIndex : Nat) (hostSnapshot : Option Snapshot)
    (p : Node) (ms : List Message) : Prop :=
  if d.IsPaused p = true then ms = []
  else if p.NextIdx ≥ firstIndex then
    ∃ m, ms = [m] ∧ m.MsgType = MessageType.MsgAppendRequest ∧ m.To = p.ID
  else
    match hostSnapshot with
    | none => ms = []
    | some s =>
      ms = [{ Message.mk0 MessageType.MsgSnapshotRequest p.ID with Snapshot := some s }]

/-- The measured size of an entry in `sendAppend`: `16 + len(Data)`. -/
def entrySize (e : Entry) : Nat :=
  16 + e.Data.length

/-- The total measured size of a list of entries. -/
def entriesSize (es : List Entry) : Nat :=
  (es.map entrySize).sum

/-- A log of three entries of term 1, the first two committed. -/
def exLog3 : RaftLog :=
  { entries := [{ Index := 1, Term := 1, Data := [] }, { Index := 2, Term := 1, Data := [7] },
                { Index := 3, Term := 1, Data := [] }],
    committed := 2, applied := 0, snapshot := { Index := 0, Term := 0 } }

/-- Node 1 as leader of the cluster of nodes 1, 2, 3 at term 1 with the log
`exLog3`: node 2 has matched index 3, node 3 has matched index 1. -/
def exLeader : Core :=
  { exCore with state := Role.RoleLeader, leaderID := 1, vote := 1, log := exLog3,
                nodes := [{ exNode 2 with Matched := 3, NextIdx := 4,
                                          state := ProgressState.Replicate },
                          { exNode 3 with Matched := 1, NextIdx := 2,
                                          state := ProgressState.Replicate }] }

/-- Node 1 as leader of the cluster of node 1 alone, with the log `exLog3`. -/
def exSingle : Core :=
  { exLeader with nodes := [] }

/-- A snapshot up to index 5 of term 1. -/
def exSnapshot : Snapshot :=
  { Metadata := { Index := 5, Term := 1 }, Data := [] }

/-- A log of two entries: the first has 10 bytes of data (measured size 26),
the second none (measured size 16). -/
def exLogBig : RaftLog :=
  { entries := [{ Index := 1, Term := 1, Data := [0, 0, 0, 0, 0, 0, 0, 0, 0, 0] },
                { Index := 2, Term := 1, Data := [] }],
    committed := 0, applied := 0, snapshot := { Index := 0, Term := 0 } }

/-- Node 1 as leader with the log `exLogBig` and `maxSizePerMsg = 20`; node 2
is to be sent the log from index 1 on. -/
def exLeaderBig : Core :=
  { exCore with state := Role.RoleLeader, leaderID := 1, vote := 1, log := exLogBig,
                maxSizePerMsg := 20,
                nodes := [{ exNode 2 with state := ProgressState.Replicate }, exNode 3] }

/-- The method `handleVoteResponse` with its two tests in the other order: the
tally of rejections is tested first, the tally of granted votes second.  It is
not in the source; it is what the source is compared with. -/
def handleVoteResponseRejectFirst (d : Deps) (c : Core) (msg : Message) : Option Core :=
  match c.getNodeByID msg.From with
  | none => none
  | some node =>
    let c := { c with nodes := setNode msg.From (node.UpdateVoteState msg.Reject) c.nodes }
    let count := voteStateCount c VoteState.VoteReject
    if count ≥ c.quorum then
      d.backToFollower c msg.Term InvalidID
    else
      let count := voteStateCount c VoteState.VoteGranted + 1
      if count ≥ c.quorum then
        if msg.MsgType = MessageType.MsgVoteResponse then
          (d.becomeLeader c).bind d.broadcastVictory
        else
          d.campaign c
      else
        some c

/-- Modelled from the spec: the invariant of the log of §3, "entries are
strictly index-increasing by 1", dense from the first index on. -/
def RaftLog.dense (l : RaftLog) : Prop :=
  ∀ (k : Nat) (h : k < l.entries.length), (l.entries.get ⟨k, h⟩).Index = l.snapshot.Index + 1 + k

/-- Node 1 of the cluster of nodes 1 to 5 as pre-candidate at term 1, no
response received yet. -/
def exPre5 : Core :=
  { exCore with state := Role.RolePrevCandidate,
                nodes := [exNode 2, exNode 3, exNode 4, exNode 5] }

/-- Node 1 of the cluster of nodes 1 to 5 as candidate at term 2 whose records
of the nodes 2 and 3 are marked `Granted`. -/
def exStale5 : Core :=
  { exCandidate5 with nodes := [{ exNode 2 with Vote := VoteState.VoteGranted },
                                { exNode 3 with Vote := VoteState.VoteGranted },
                                exNode 4, exNode 5] }

/-- The leader `exLeader` of the cluster of nodes 1, 2, 3 with one read-index
request outstanding: context `[9]`, asked by node 2 at commit index 2, not
acknowledged yet. -/
def exLeaderRead : Core :=
  { exLeader with
    readOnly := { requests := [{ index := 2, requester := 2, context := [9], acks := [] }] } }

/-! ## Properties of the vote handlers -/

/-- What `handleVote` does, by the outcome of its test. -/
theorem handleVote_cases (d : Deps) (c : Core) (msg : Message) :
    ((c.vote = InvalidID ∨ c.vote = msg.From) ∧
        d.IsUpToDate c.log msg.LogIndex msg.LogTerm = true ∧
        handleVote d c msg = Core.send { c with vote := msg.From }
          { Message.mk0 MessageType.MsgVoteResponse msg.From with Reject := false }) ∨
    (¬ ((c.vote = InvalidID ∨ c.vote = msg.From) ∧
          d.IsUpToDate c.log msg.LogIndex msg.LogTerm = true) ∧
        handleVote d c msg = Core.send c
          { Message.mk0 MessageType.MsgVoteResponse msg.From with Reject := true }) := by
  by_cases h : (c.vote = InvalidID ∨ c.vote = msg.From) ∧
      d.IsUpToDate c.log msg.LogIndex msg.LogTerm = true
  · exact Or.inl ⟨h.1, h.2, by simp only [handleVote, if_pos h]⟩
  · exact Or.inr ⟨h, by simp only [handleVote, if_neg h]⟩

/-- C1: `handlePreVote` sends one `PreVoteResponse` to `msg.From` and changes
nothing else; the response accepts (`Reject = false`) if and only if
(`leaderID == InvalidID` or `timeElapsed >= electionTick`) and
`msg.Term >= term` and `log.IsUpToDate(msg.LogIndex, msg.LogTerm)`.  In
particular a node that knows a leader and has `timeElapsed < electionTick`
rejects, whatever the term and log position of the request. -/
theorem handlePreVote_accept_iff (d : Deps) (c : Core) (msg : Message) :
    ∃ reply : Message,
      handlePreVote d c msg = c.send reply ∧
      reply.MsgType = MessageType.MsgPreVoteResponse ∧
      reply.To = msg.From ∧
      (reply.Reject = false ↔
        (c.leaderID = InvalidID ∨ c.timeElapsed ≥ c.electionTick) ∧ msg.Term ≥ c.term ∧
          d.IsUpToDate c.log msg.LogIndex msg.LogTerm = true) ∧
      (c.leaderID ≠ InvalidID → c.timeElapsed < c.electionTick → reply.Reject = true) := by
  by_cases h : (c.leaderID ≠ InvalidID ∧ c.timeElapsed < c.electionTick) ∨
      (msg.Term < c.term) ∨ ¬ (d.IsUpToDate c.log msg.LogIndex msg.LogTerm = true)
  · refine ⟨{ Message.mk0 MessageType.MsgPreVoteResponse msg.From with
        Reject := true, Term := c.term }, ?_, rfl, rfl, ?_, fun _ _ => rfl⟩
    · simp only [handlePreVote, if_pos h]
    · constructor
      · intro hr
        exact absurd hr (by simp)
      · rintro ⟨h1, h2, h3⟩
        rcases h with ⟨hl, ht⟩ | ht | hu
        · rcases h1 with h1 | h1
          · exact absurd h1 hl
          · omega
        · omega
        · exact absurd h3 hu
  · refine ⟨{ Message.mk0 MessageType.MsgPreVoteResponse msg.From with
        Reject := false, Term := msg.Term }, ?_, rfl, rfl, ?_, ?_⟩
    · simp only [handlePreVote, if_neg h]
    · push_neg at h
      obtain ⟨h1, h2, h3⟩ := h
      refine ⟨fun _ => ⟨?_, h2, h3⟩, fun _ => rfl⟩
      by_cases hl : c.leaderID = InvalidID
      · exact Or.inl hl
      · exact Or.inr (h1 hl)
    · intro hl ht
      exact absurd (Or.inl ⟨hl, ht⟩) h

/-- C2: `handleVote` sends one `VoteResponse` to `msg.From`; it grants
(`Reject = false`) if and only if (`vote == InvalidID` or `vote == msg.From`)
and `log.IsUpToDate(msg.LogIndex, msg.LogTerm)`; when it grants, `vote` is
`msg.From` afterwards, when it rejects, `vote` is unchanged; nothing else
changes. -/
theorem handleVote_grant_iff (d : Deps) (c : Core) (msg : Message) :
    ∃ reply : Message,
      handleVote d c msg =
        Core.send { c with vote := if reply.Reject = false then msg.From else c.vote } reply ∧
      reply.MsgType = MessageType.MsgVoteResponse ∧
      reply.To = msg.From ∧
      (reply.Reject = false ↔
        (c.vote = InvalidID ∨ c.vote = msg.From) ∧
          d.IsUpToDate c.log msg.LogIndex msg.LogTerm = true) ∧
      (reply.Reject = false → (handleVote d c msg).vote = msg.From) ∧
      (reply.Reject = true → (handleVote d c msg).vote = c.vote) := by
  rcases handleVote_cases d c msg with ⟨h1, h2, h⟩ | ⟨hn, h⟩
  · refine ⟨{ Message.mk0 MessageType.MsgVoteResponse msg.From with Reject := false },
      ?_, rfl, rfl, ⟨fun _ => ⟨h1, h2⟩, fun _ => rfl⟩, fun _ => ?_, fun hr => ?_⟩
    · rw [h]; rfl
    · rw [h]; rfl
    · exact absurd hr (by simp)
  · refine ⟨{ Message.mk0 MessageType.MsgVoteResponse msg.From with Reject := true },
      ?_, rfl, rfl, ⟨fun hr => ?_, fun hh => absurd hh hn⟩, fun hr => ?_, fun _ => ?_⟩
    · rw [h]; rfl
    · exact absurd hr (by simp)
    · exact absurd hr (by simp)
    · rw [h]; rfl

/-- A run of `handleVote` from a state that has voted for `c.vote`: every
granted request comes from `c.vote`, and the vote stays. -/
theorem handleVotes_voted (d : Deps) (msgs : List Message) :
    ∀ c : Core, c.vote ≠ InvalidID →
      ∃ replies : List Message,
        (handleVotes d c msgs).callback.sent = c.callback.sent ++ replies ∧
        List.Forall₂ (fun m r => r.To = m.From ∧ r.MsgType = MessageType.MsgVoteResponse)
          msgs replies ∧
        (∀ r ∈ replies, r.Reject = false → r.To = c.vote) ∧
        (handleVotes d c msgs).vote = c.vote := by
  induction msgs with
  | nil =>
    intro c _
    exact ⟨[], by simp [handleVotes], List.Forall₂.nil, by simp, rfl⟩
  | cons m ms ih =>
    intro c hv
    rcases handleVote_cases d c m with ⟨h1, _, h⟩ | ⟨_, h⟩
    · have hm : c.vote = m.From := h1.resolve_left hv
      have hv1 : (handleVote d c m).vote = c.vote := by rw [h]; exact hm.symm
      obtain ⟨rs, hs, hf, hg, hvote⟩ := ih (handleVote d c m) (by rw [hv1]; exact hv)
      refine ⟨{ Message.mk0 MessageType.MsgVoteResponse m.From with Reject := false } :: rs,
        ?_, List.Forall₂.cons ⟨rfl, rfl⟩ hf, ?_, ?_⟩
      · simp only [handleVotes]
        rw [hs, h]
        simp [Core.send]
      · intro r hr hrej
        rcases List.mem_cons.mp hr with rfl | hr
        · exact hm.symm
        · rw [← hv1]; exact hg r hr hrej
      · simp only [handleVotes]
        rw [hvote, hv1]
    · have hv1 : (handleVote d c m).vote = c.vote := by rw [h]; rfl
      obtain ⟨rs, hs, hf, hg, hvote⟩ := ih (handleVote d c m) (by rw [hv1]; exact hv)
      refine ⟨{ Message.mk0 MessageType.MsgVoteResponse m.From with Reject := true } :: rs,
        ?_, List.Forall₂.cons ⟨rfl, rfl⟩ hf, ?_, ?_⟩
      · simp only [handleVotes]
        rw [hs, h]
        simp [Core.send]
      · intro r hr hrej
        rcases List.mem_cons.mp hr with rfl | hr
        · exact absurd hrej (by simp)
        · rw [← hv1]; exact hg r hr hrej
      · simp only [handleVotes]
        rw [hvote, hv1]

/-- A run of `handleVote` on requests of senders with a valid ID: all granted
requests come from one sender. -/
theorem handleVotes_one_candidate (d : Deps) (msgs : List Message) :
    ∀ c : Core, (∀ m ∈ msgs, m.From ≠ InvalidID) →
      ∃ replies : List Message,
        (handleVotes d c msgs).callback.sent = c.callback.sent ++ replies ∧
        List.Forall₂ (fun m r => r.To = m.From ∧ r.MsgType = MessageType.MsgVoteResponse)
          msgs replies ∧
        (∀ r1 ∈ replies, ∀ r2 ∈ replies,
          r1.Reject = false → r2.Reject = false → r1.To = r2.To) := by
  induction msgs with
  | nil =>
    intro c _
    exact ⟨[], by simp [handleVotes], List.Forall₂.nil, by simp⟩
  | cons m ms ih =>
    intro c hall
    have hm0 : m.From ≠ InvalidID := hall m (List.mem_cons_self _ _)
    have hrest : ∀ x ∈ ms, x.From ≠ InvalidID := fun x hx => hall x (List.mem_cons_of_mem _ hx)
    rcases handleVote_cases d c m with ⟨_, _, h⟩ | ⟨_, h⟩
    · have hv1 : (handleVote d c m).vote = m.From := by rw [h]; rfl
      obtain ⟨rs, hs, hf, hg, _⟩ := handleVotes_voted d ms (handleVote d c m)
        (by rw [hv1]; exact hm0)
      rw [hv1] at hg
      refine ⟨{ Message.mk0 MessageType.MsgVoteResponse m.From with Reject := false } :: rs,
        ?_, List.Forall₂.cons ⟨rfl, rfl⟩ hf, ?_⟩
      · simp only [handleVotes]
        rw [hs, h]
        simp [Core.send]
      · intro r1 hr1 r2 hr2 hj1 hj2
        have key : ∀ r ∈ ({ Message.mk0 MessageType.MsgVoteResponse m.From with
            Reject := false } :: rs : List Message), r.Reject = false → r.To = m.From := by
          intro r hr hj
          rcases List.mem_cons.mp hr with rfl | hr
          · rfl
          · exact hg r hr hj
        rw [key r1 hr1 hj1, key r2 hr2 hj2]
    · obtain ⟨rs, hs, hf, hg⟩ := ih (handleVote d c m) hrest
      refine ⟨{ Message.mk0 MessageType.MsgVoteResponse m.From with Reject := true } :: rs,
        ?_, List.Forall₂.cons ⟨rfl, rfl⟩ hf, ?_⟩
      · simp only [handleVotes]
        rw [hs, h]
        simp [Core.send]
      · intro r1 hr1 r2 hr2 hj1 hj2
        rcases List.mem_cons.mp hr1 with rfl | hr1
        · exact absurd hj1 (by simp)
        · rcases List.mem_cons.mp hr2 with rfl | hr2
          · exact absurd hj2 (by simp)
          · exact hg r1 hr1 r2 hr2 hj1 hj2

/-- C3: vote uniqueness.  In a state that has voted for `v != InvalidID`,
`handleVote` answers a request of any other sender with `Reject = true` and
leaves `vote = v`.  Hence in every run of `handleVote` calls with no term
change in between, on requests of nodes (their IDs are not `InvalidID`), all
granted requests come from one and the same candidate. -/
theorem handleVote_unique (d : Deps) (c : Core) :
    (∀ msg : Message, c.vote ≠ InvalidID → msg.From ≠ c.vote →
      ∃ reply : Message,
        handleVote d c msg = c.send reply ∧ reply.To = msg.From ∧ reply.Reject = true ∧
          (handleVote d c msg).vote = c.vote) ∧
    (∀ msgs : List Message, (∀ m ∈ msgs, m.From ≠ InvalidID) →
      ∃ replies : List Message,
        (handleVotes d c msgs).callback.sent = c.callback.sent ++ replies ∧
        List.Forall₂ (fun m r => r.To = m.From ∧ r.MsgType = MessageType.MsgVoteResponse)
          msgs replies ∧
        (∀ r1 ∈ replies, ∀ r2 ∈ replies,
          r1.Reject = false → r2.Reject = false → r1.To = r2.To)) := by
  refine ⟨fun msg hv hne => ?_, fun msgs hall => handleVotes_one_candidate d msgs c hall⟩
  rcases handleVote_cases d c msg with ⟨h1, _, _⟩ | ⟨_, h⟩
  · rcases h1 with h1 | h1
    · exact absurd h1 hv
    · exact absurd h1.symm hne
  · exact ⟨_, h, rfl, rfl, by rw [h]; rfl⟩

/-- Witness of C3: node 1, having voted for node 2, rejects node 3; and in the
run of the requests of nodes 2 and 3 from the state that has not voted, the
granted requests have one sender. -/
theorem handleVote_unique_witness :
    (∃ reply : Message,
      handleVote specDeps { exCore with vote := 2 } (exMsg MessageType.MsgVoteRequest 3 1) =
        Core.send { exCore with vote := 2 } reply ∧ reply.To = 3 ∧ reply.Reject = true ∧
      (handleVote specDeps { exCore with vote := 2 }
        (exMsg MessageType.MsgVoteRequest 3 1)).vote = 2) ∧
    (∃ replies : List Message,
      (handleVotes specDeps exCore [exMsg MessageType.MsgVoteRequest 2 1,
          exMsg MessageType.MsgVoteRequest 3 1]).callback.sent =
        exCore.callback.sent ++ replies ∧
      List.Forall₂ (fun m r => r.To = m.From ∧ r.MsgType = MessageType.MsgVoteResponse)
        [exMsg MessageType.MsgVoteRequest 2 1, exMsg MessageType.MsgVoteRequest 3 1] replies ∧
      (∀ r1 ∈ replies, ∀ r2 ∈ replies,
        r1.Reject = false → r2.Reject = false → r1.To = r2.To)) :=
  ⟨(handleVote_unique specDeps { exCore with vote := 2 }).1
      (exMsg MessageType.MsgVoteRequest 3 1) (by decide) (by decide),
    (handleVote_unique specDeps exCore).2
      [exMsg MessageType.MsgVoteRequest 2 1, exMsg MessageType.MsgVoteRequest 3 1]
      (by decide)⟩

/-- The run of the witness of C3 grants node 2 and rejects node 3. -/
theorem handleVotes_example :
    (handleVotes specDeps exCore [exMsg MessageType.MsgVoteRequest 2 1,
        exMsg MessageType.MsgVoteRequest 3 1]).callback.sent.map (fun r => (r.To, r.Reject)) =
      [(2, false), (3, true)] := by
  decide

/-! ## Pre-vote requests, the election timer, stale appends -/

/-- What `handlePreVote` does, by the outcome of its test. -/
theorem handlePreVote_cases (d : Deps) (c : Core) (msg : Message) :
    (handlePreVote d c msg = c.send { Message.mk0 MessageType.MsgPreVoteResponse msg.From with
        Reject := true, Term := c.term }) ∨
    (handlePreVote d c msg = c.send { Message.mk0 MessageType.MsgPreVoteResponse msg.From with
        Reject := false, Term := msg.Term }) := by
  by_cases h : (c.leaderID ≠ InvalidID ∧ c.timeElapsed < c.electionTick) ∨
      (msg.Term < c.term) ∨ ¬ (d.IsUpToDate c.log msg.LogIndex msg.LogTerm = true)
  · exact Or.inl (by simp only [handlePreVote, if_pos h])
  · exact Or.inr (by simp only [handlePreVote, if_neg h])

/-- C6: `handlePreVote` leaves `term`, `vote`, the role, `leaderID` and the
commit index as they were, whether it accepts or rejects: the state afterwards
is the state before with one `PreVoteResponse` added to the messages sent. -/
theorem handlePreVote_frame (d : Deps) (c : Core) (msg : Message) :
    (handlePreVote d c msg).term = c.term ∧
    (handlePreVote d c msg).vote = c.vote ∧
    (handlePreVote d c msg).state = c.state ∧
    (handlePreVote d c msg).leaderID = c.leaderID ∧
    (handlePreVote d c msg).log.CommitIndex = c.log.CommitIndex ∧
    ∃ reply : Message,
      reply.MsgType = MessageType.MsgPreVoteResponse ∧
      handlePreVote d c msg =
        { c with callback := { c.callback with sent := c.callback.sent ++ [reply] } } := by
  rcases handlePreVote_cases d c msg with h | h <;> rw [h] <;>
    exact ⟨rfl, rfl, rfl, rfl, rfl, _, rfl, rfl⟩

/-- C8: the `PreVoteResponse` that `handlePreVote` builds has `Term = msg.Term`
when the pre-vote is accepted and `Term` = the local term when it is rejected. -/
theorem handlePreVote_reply_term (d : Deps) (c : Core) (msg : Message) :
    ∃ reply : Message,
      handlePreVote d c msg = c.send reply ∧
      (reply.Reject = false → reply.Term = msg.Term) ∧
      (reply.Reject = true → reply.Term = c.term) := by
  rcases handlePreVote_cases d c msg with h | h
  · exact ⟨_, h, fun hr => absurd hr (by simp), fun _ => rfl⟩
  · exact ⟨_, h, fun _ => rfl, fun hr => absurd hr (by simp)⟩

/-- Both outcomes of C8 occur: node 1 at term 1 accepts the pre-vote of node 2
for term 2 and answers with term 2; knowing leader 3 it rejects and answers
with its own term 1. -/
theorem preVote_reply_examples :
    (handlePreVote specDeps exCore (exMsg MessageType.MsgPreVoteRequest 2 2)).callback.sent.map
        (fun r => (r.Reject, r.Term)) = [(false, 2)] ∧
    (handlePreVote specDeps { exCore with leaderID := 3 }
        (exMsg MessageType.MsgPreVoteRequest 2 2)).callback.sent.map
        (fun r => (r.Reject, r.Term)) = [(true, 1)] := by
  decide

/-- C9, as stated, fails: node 1 (3 ticks after its last contact) grants the
vote request of node 2, and its election timer is still 3, not 0. -/
theorem handleVote_timer_counterexample :
    (handleVote specDeps exCore (exMsg MessageType.MsgVoteRequest 2 1)).vote = 2 ∧
    (handleVote specDeps exCore (exMsg MessageType.MsgVoteRequest 2 1)).callback.sent.map
        (fun r => r.Reject) = [false] ∧
    (handleVote specDeps exCore (exMsg MessageType.MsgVoteRequest 2 1)).timeElapsed = 3 ∧
    (handleVote specDeps exCore (exMsg MessageType.MsgVoteRequest 2 1)).timeElapsed ≠ 0 := by
  decide

/-- C9, amended: `handleVote` does not touch the election timer: `timeElapsed`
(and `electionTick`) are after the call what they were before, whether the
vote is granted or rejected. -/
theorem handleVote_timer_unchanged (d : Deps) (c : Core) (msg : Message) :
    (handleVote d c msg).timeElapsed = c.timeElapsed ∧
    (handleVote d c msg).electionTick = c.electionTick := by
  rcases handleVote_cases d c msg with ⟨_, _, h⟩ | ⟨_, h⟩ <;> rw [h] <;> exact ⟨rfl, rfl⟩

/-- C10: a stale append is harmless.  When `msg.LogIndex < commitIndex`,
`handleAppendEntries` sends `AppendResponse` with `To = msg.From`,
`Index = msg.LogIndex`, `RejectHint = commitIndex`, `Reject = false` and
changes nothing else: the log (its entries and commit index) is as before,
and the outcome is the same whatever `TryAppend` and `CommitTo` would do,
for they are not called. -/
theorem handleAppendEntries_stale (d : Deps) (c : Core) (msg : Message)
    (h : msg.LogIndex < c.log.CommitIndex) :
    handleAppendEntries d c msg =
      c.send { Message.mk0 MessageType.MsgAppendResponse msg.From with
        Index := msg.LogIndex, RejectHint := c.log.CommitIndex, Reject := false } ∧
    (handleAppendEntries d c msg).log = c.log ∧
    (handleAppendEntries d c msg).log.CommitIndex = c.log.CommitIndex ∧
    (handleAppendEntries d c msg).callback.sent = c.callback.sent ++
      [{ Message.mk0 MessageType.MsgAppendResponse msg.From with
        Index := msg.LogIndex, RejectHint := c.log.CommitIndex, Reject := false }] ∧
    ∀ d2 : Deps, handleAppendEntries d2 c msg = handleAppendEntries d c msg := by
  have key : ∀ d1 : Deps, handleAppendEntries d1 c msg =
      c.send { Message.mk0 MessageType.MsgAppendResponse msg.From with
        Index := msg.LogIndex, RejectHint := c.log.CommitIndex, Reject := false } := by
    intro d1
    simp only [handleAppendEntries, gt_iff_lt, if_pos h]
  refine ⟨key d, ?_, ?_, ?_, fun d2 => ?_⟩
  · rw [key d]; rfl
  · rw [key d]; rfl
  · rw [key d]; rfl
  · rw [key d2, key d]

/-- Witness of C10: a follower with commit index 5 receives an append whose
previous index is 3. -/
theorem handleAppendEntries_stale_witness :
    handleAppendEntries specDeps { exCore with log := { exLog with committed := 5 } }
        { exMsg MessageType.MsgAppendRequest 2 1 with LogIndex := 3 } =
      Core.send { exCore with log := { exLog with committed := 5 } }
        { Message.mk0 MessageType.MsgAppendResponse 2 with
          Index := 3, RejectHint := 5, Reject := false } :=
  (handleAppendEntries_stale specDeps { exCore with log := { exLog with committed := 5 } }
    { exMsg MessageType.MsgAppendRequest 2 1 with LogIndex := 3 } (by decide)).1

/-! ## Vote responses -/

/-- A write through `setNode` at `id` leaves the lookup of every other ID as it was. -/
theorem setNode_find_ne (id id2 : Nat) (n : Node) (h : n.ID = id) (hne : id2 ≠ id)
    (l : List Node) : (setNode id n l).find? (fun x => x.ID == id2) =
      l.find? (fun x => x.ID == id2) := by
  induction l with
  | nil => rfl
  | cons x xs ih =>
    by_cases hx : x.ID = id
    · have hx2 : ¬ x.ID = id2 := fun e => hne (e.symm.trans hx)
      have hn2 : ¬ n.ID = id2 := fun e => hne (e.symm.trans h)
      have e1 : setNode id n (x :: xs) = n :: xs := by simp [setNode, hx]
      rw [e1]
      simp [List.find?_cons, hx2, hn2]
    · have e1 : setNode id n (x :: xs) = x :: setNode id n xs := by simp [setNode, hx]
      rw [e1]
      simp only [List.find?_cons, ih]

/-- After a write through `setNode` at the ID of a peer, the lookup of that ID
finds the record written. -/
theorem setNode_find_eq (id : Nat) (n node : Node) (h : n.ID = id)
    (l : List Node) (hf : l.find? (fun x => x.ID == id) = some node) :
    (setNode id n l).find? (fun x => x.ID == id) = some n := by
  induction l with
  | nil => simp at hf
  | cons x xs ih =>
    by_cases hx : x.ID = id
    · have e1 : setNode id n (x :: xs) = n :: xs := by simp [setNode, hx]
      rw [e1]
      simp [List.find?_cons, h]
    · have e1 : setNode id n (x :: xs) = x :: setNode id n xs := by simp [setNode, hx]
      rw [e1]
      simp only [List.find?_cons] at hf ⊢
      have hb : (x.ID == id) = false := by simp [hx]
      rw [hb] at hf ⊢
      exact ih hf

/-- The record found by a lookup has the ID looked up. -/
theorem find_ID (id : Nat) (node : Node) (l : List Node)
    (hf : l.find? (fun x => x.ID == id) = some node) : node.ID = id := by
  have := List.find?_some hf
  simpa using this

/-- Counting after a write through `setNode`: a predicate on the `ID` alone
counts the same. -/
theorem setNode_countP_ID (id : Nat) (n : Node) (h : n.ID = id) (p : Nat → Bool)
    (l : List Node) :
    (setNode id n l).countP (fun x => p x.ID) = l.countP (fun x => p x.ID) := by
  induction l with
  | nil => rfl
  | cons x xs ih =>
    by_cases hx : x.ID = id
    · have e1 : setNode id n (x :: xs) = n :: xs := by simp [setNode, hx]
      rw [e1]
      simp [List.countP_cons, h, hx]
    · have e1 : setNode id n (x :: xs) = x :: setNode id n xs := by simp [setNode, hx]
      rw [e1]
      simp [List.countP_cons, ih]

/-- A write through `setNode` keeps the number of peers. -/
theorem setNode_length (id : Nat) (n : Node) (l : List Node) :
    (setNode id n l).length = l.length := by
  induction l with
  | nil => rfl
  | cons x xs ih =>
    by_cases hx : x.ID = id
    · simp [setNode, hx]
    · simp [setNode, hx, ih]

/-- After a write through `setNode`, a record is an old one or the one written. -/
theorem setNode_mem (id : Nat) (n : Node) (l : List Node) :
    ∀ x ∈ setNode id n l, x ∈ l ∨ x = n := by
  induction l with
  | nil => intro x hx; simp [setNode] at hx
  | cons y ys ih =>
    intro x hx
    by_cases hy : y.ID = id
    · have e1 : setNode id n (y :: ys) = n :: ys := by simp [setNode, hy]
      rw [e1] at hx
      rcases List.mem_cons.mp hx with rfl | hx
      · exact Or.inr rfl
      · exact Or.inl (List.mem_cons_of_mem _ hx)
    · have e1 : setNode id n (y :: ys) = y :: setNode id n ys := by simp [setNode, hy]
      rw [e1] at hx
      rcases List.mem_cons.mp hx with rfl | hx
      · exact Or.inl (List.mem_cons_self _ _)
      · rcases ih x hx with h | h
        · exact Or.inl (List.mem_cons_of_mem _ h)
        · exact Or.inr h


/-- The method `handleVoteResponse` on the response of a peer: the vote is
recorded, then the two tallies decide. -/
theorem handleVoteResponse_eq (d : Deps) (c : Core) (msg : Message) (node : Node)
    (hpeer : c.getNodeByID msg.From = some node) :
    handleVoteResponse d c msg =
      if voteStateCount (recordVote c msg node) VoteState.VoteGranted + 1 ≥
          (recordVote c msg node).quorum then
        if msg.MsgType = MessageType.MsgVoteResponse then
          (d.becomeLeader (recordVote c msg node)).bind d.broadcastVictory
        else d.campaign (recordVote c msg node)
      else if voteStateCount (recordVote c msg node) VoteState.VoteReject ≥
          (recordVote c msg node).quorum then
        d.backToFollower (recordVote c msg node) msg.Term InvalidID
      else some (recordVote c msg node) := by
  simp only [handleVoteResponse, hpeer, recordVote]

/-- Recording a vote keeps the quorum. -/
theorem recordVote_quorum (c : Core) (msg : Message) (node : Node) :
    (recordVote c msg node).quorum = c.quorum := by
  simp only [recordVote, Core.quorum, setNode_length]

/-- The count of `voteStateCount` as `List.countP`. -/
theorem voteStateCount_eq_countP (c : Core) (s : VoteState) :
    voteStateCount c s = c.nodes.countP (fun n => n.Vote == s) := by
  simp only [voteStateCount, List.countP_eq_length_filter]

/-- The votes marked `Granted` after a response of a sender in `R` was recorded
are still those of peers in `R`. -/
theorem recordVote_granted_subset (c : Core) (msg : Message) (node : Node) (R : List Nat)
    (hpeer : c.getNodeByID msg.From = some node) (hR : msg.From ∈ R)
    (hsub : ∀ n ∈ c.nodes, n.Vote = VoteState.VoteGranted → n.ID ∈ R) :
    ∀ n ∈ (recordVote c msg node).nodes, n.Vote = VoteState.VoteGranted → n.ID ∈ R := by
  intro n hn hg
  rcases setNode_mem msg.From (node.UpdateVoteState msg.Reject) c.nodes n hn with h | h
  · exact hsub n h hg
  · have hid : node.ID = msg.From := find_ID msg.From node c.nodes hpeer
    rw [h]
    show node.ID ∈ R
    rw [hid]; exact hR

/-- The peers marked `Granted` are at most the peers with an ID in `R`, when
every one of them has its ID in `R`. -/
theorem granted_le_reach (c : Core) (R : List Nat)
    (hsub : ∀ n ∈ c.nodes, n.Vote = VoteState.VoteGranted → n.ID ∈ R) :
    voteStateCount c VoteState.VoteGranted ≤ c.nodes.countP (fun n => decide (n.ID ∈ R)) := by
  rw [voteStateCount_eq_countP]
  apply List.countP_mono_left
  intro n hn hv
  have : n.Vote = VoteState.VoteGranted := by simpa using hv
  simpa using hsub n hn this


/-- The response of an unknown sender aborts `handleVoteResponse`. -/
theorem handleVoteResponse_none (d : Deps) (c : Core) (msg : Message)
    (hpeer : c.getNodeByID msg.From = none) : handleVoteResponse d c msg = none := by
  simp only [handleVoteResponse, hpeer]

/-- One vote response of a sender in `R`, handled by a candidate whose granted
peers are in `R` and too few for a quorum: the node is not leader afterwards,
and is a follower or again such a candidate. -/
theorem handleVoteResponse_safe (d : Deps) (R : List Nat)
    (hback : ∀ x t l y, d.backToFollower x t l = some y → y.state = Role.RoleFollower)
    (c : Core) (m : Message) (hR : m.From ∈ R) (hst : c.state ≠ Role.RoleLeader)
    (hsub : ∀ n ∈ c.nodes, n.Vote = VoteState.VoteGranted → n.ID ∈ R)
    (hfew : c.nodes.countP (fun n => decide (n.ID ∈ R)) + 1 < c.quorum) :
    ∀ c2, handleVoteResponse d c m = some c2 →
      c2.state ≠ Role.RoleLeader ∧
      (c2.state = Role.RoleFollower ∨
        ((∀ n ∈ c2.nodes, n.Vote = VoteState.VoteGranted → n.ID ∈ R) ∧
          c2.nodes.countP (fun n => decide (n.ID ∈ R)) + 1 < c2.quorum)) := by
  intro c2 h2
  cases hpeer : c.getNodeByID m.From with
  | none => rw [handleVoteResponse_none d c m hpeer] at h2; exact absurd h2 (by simp)
  | some node =>
    have hid : node.ID = m.From := find_ID m.From node c.nodes hpeer
    have hsub1 := recordVote_granted_subset c m node R hpeer hR hsub
    have hq := recordVote_quorum c m node
    have hcnt : (recordVote c m node).nodes.countP (fun n => decide (n.ID ∈ R)) =
        c.nodes.countP (fun n => decide (n.ID ∈ R)) :=
      setNode_countP_ID m.From (node.UpdateVoteState m.Reject) hid (fun i => decide (i ∈ R))
        c.nodes
    have hle := granted_le_reach (recordVote c m node) R hsub1
    rw [handleVoteResponse_eq d c m node hpeer] at h2
    have hng : ¬ (voteStateCount (recordVote c m node) VoteState.VoteGranted + 1 ≥
        (recordVote c m node).quorum) := by
      rw [hq]; omega
    rw [if_neg hng] at h2
    by_cases hrej : voteStateCount (recordVote c m node) VoteState.VoteReject ≥
        (recordVote c m node).quorum
    · rw [if_pos hrej] at h2
      have hf := hback _ _ _ _ h2
      exact ⟨by rw [hf]; decide, Or.inl hf⟩
    · rw [if_neg hrej] at h2
      have e : c2 = recordVote c m node := (Option.some.inj h2).symm
      subst e
      exact ⟨hst, Or.inr ⟨hsub1, by rw [hcnt, hq]; exact hfew⟩⟩

/-- One step of a run of vote responses keeps the node out of the leader role. -/
theorem dispatch_vote_response_safe (d : Deps) (R : List Nat)
    (hback : ∀ x t l y, d.backToFollower x t l = some y → y.state = Role.RoleFollower)
    (c : Core) (m : Message)
    (hm : (m.MsgType = MessageType.MsgVoteResponse ∨
      m.MsgType = MessageType.MsgPreVoteResponse) ∧ m.From ∈ R)
    (hst : c.state ≠ Role.RoleLeader)
    (hJ : c.state = Role.RoleFollower ∨
      ((∀ n ∈ c.nodes, n.Vote = VoteState.VoteGranted → n.ID ∈ R) ∧
        c.nodes.countP (fun n => decide (n.ID ∈ R)) + 1 < c.quorum)) :
    ∀ c2, dispatch d c m = some c2 →
      c2.state ≠ Role.RoleLeader ∧
      (c2.state = Role.RoleFollower ∨
        ((∀ n ∈ c2.nodes, n.Vote = VoteState.VoteGranted → n.ID ∈ R) ∧
          c2.nodes.countP (fun n => decide (n.ID ∈ R)) + 1 < c2.quorum)) := by
  intro c2 h2
  have same : some c = some c2 → c2.state ≠ Role.RoleLeader ∧
      (c2.state = Role.RoleFollower ∨
        ((∀ n ∈ c2.nodes, n.Vote = VoteState.VoteGranted → n.ID ∈ R) ∧
          c2.nodes.countP (fun n => decide (n.ID ∈ R)) + 1 < c2.quorum)) := by
    intro e
    have e2 : c = c2 := Option.some.inj e
    subst e2
    exact ⟨hst, hJ⟩
  cases hs : c.state with
  | RoleLeader => exact absurd hs hst
  | RoleFollower =>
    rcases hm.1 with ht | ht <;>
      · simp only [dispatch, hs, stepFollower, ht] at h2
        exact same h2
  | RolePrevCandidate =>
    have hJ2 := hJ.resolve_left (by rw [hs]; decide)
    rcases hm.1 with ht | ht
    · simp only [dispatch, hs, stepCandidate, ht] at h2
      simp at h2
      exact same (by rw [h2])
    · simp only [dispatch, hs, stepCandidate, ht] at h2
      simp at h2
      exact handleVoteResponse_safe d R hback c m hm.2 hst hJ2.1 hJ2.2 c2 h2
  | RoleCandidate =>
    have hJ2 := hJ.resolve_left (by rw [hs]; decide)
    rcases hm.1 with ht | ht
    · simp only [dispatch, hs, stepCandidate, ht] at h2
      simp at h2
      exact handleVoteResponse_safe d R hback c m hm.2 hst hJ2.1 hJ2.2 c2 h2
    · simp only [dispatch, hs, stepCandidate, ht] at h2
      simp at h2
      exact same (by rw [h2])

/-- A run of vote responses of senders in `R`, too few for a quorum, never
ends in the leader role. -/
theorem dispatchAll_vote_responses_safe (d : Deps) (R : List Nat)
    (hback : ∀ x t l y, d.backToFollower x t l = some y → y.state = Role.RoleFollower)
    (msgs : List Message) :
    ∀ c : Core,
      (∀ m ∈ msgs, (m.MsgType = MessageType.MsgVoteResponse ∨
        m.MsgType = MessageType.MsgPreVoteResponse) ∧ m.From ∈ R) →
      c.state ≠ Role.RoleLeader →
      (c.state = Role.RoleFollower ∨
        ((∀ n ∈ c.nodes, n.Vote = VoteState.VoteGranted → n.ID ∈ R) ∧
          c.nodes.countP (fun n => decide (n.ID ∈ R)) + 1 < c.quorum)) →
      ∀ c2, dispatchAll d c msgs = some c2 → c2.state ≠ Role.RoleLeader := by
  induction msgs with
  | nil =>
    intro c _ hst _ c2 h2
    have e : c = c2 := Option.some.inj h2
    subst e
    exact hst
  | cons m ms ih =>
    intro c hall hst hJ c2 h2
    simp only [dispatchAll] at h2
    cases h1 : dispatch d c m with
    | none => rw [h1] at h2; exact absurd h2 (by simp)
    | some c1 =>
      rw [h1] at h2
      have hstep := dispatch_vote_response_safe d R hback c m
        (hall m (List.mem_cons_self _ _)) hst hJ c1 h1
      exact ih c1 (fun x hx => hall x (List.mem_cons_of_mem _ hx)) hstep.1 hstep.2 c2 h2


/-- The count of `voteStateCount`, spelled out: the number of peers whose vote
state is `s`. -/
theorem voteStateCount_eq_count (c : Core) (s : VoteState) :
    voteStateCount c s = c.nodes.countP (fun n => decide (n.Vote = s)) := by
  rw [voteStateCount_eq_countP]
  apply List.countP_congr
  intro n _
  simp

/-- C5, amended: `handleVoteResponse`, on the response of a peer, first records
the sender's vote state (`Granted` if `!msg.Reject`, `Rejected` otherwise; the
other peers keep theirs) and then, with the quorum
`(number of peers + 1) / 2 + 1`: if the number of peers marked `Granted`, plus
one, reaches the quorum, it calls `becomeLeader` and `broadcastVictory` for a
`VoteResponse` and `campaign` for a `PreVoteResponse`; otherwise, if the number
of peers marked `Rejected` reaches the quorum, it calls
`backToFollower(msg.Term, InvalidID)`; otherwise only the vote is recorded and
the role is unchanged.  Consequently (with `backToFollower` ending in the
follower role) a node that was not leader is leader afterwards only if the
peers marked `Granted` plus itself reach the quorum.  The tally counts every
mark, whenever it was set; so the node never becomes leader in a run of vote
responses of senders in `R` when the peers in `R` plus itself are fewer than
the quorum and no peer outside `R` is marked `Granted` at the start. -/
theorem handleVoteResponse_outcome (d : Deps) (c : Core) :
    c.quorum = (c.nodes.length + 1) / 2 + 1 ∧
    (∀ (msg : Message) (node : Node), c.getNodeByID msg.From = some node →
      (recordVote c msg node).getNodeByID msg.From =
        some { node with Vote :=
          if msg.Reject = true then VoteState.VoteReject else VoteState.VoteGranted } ∧
      (∀ id, id ≠ msg.From → (recordVote c msg node).getNodeByID id = c.getNodeByID id) ∧
      ((recordVote c msg node).nodes.countP
          (fun n => decide (n.Vote = VoteState.VoteGranted)) + 1 ≥ c.quorum →
        (msg.MsgType = MessageType.MsgVoteResponse →
          handleVoteResponse d c msg =
            (d.becomeLeader (recordVote c msg node)).bind d.broadcastVictory) ∧
        (msg.MsgType = MessageType.MsgPreVoteResponse →
          handleVoteResponse d c msg = d.campaign (recordVote c msg node))) ∧
      ((recordVote c msg node).nodes.countP
          (fun n => decide (n.Vote = VoteState.VoteGranted)) + 1 < c.quorum →
        ((recordVote c msg node).nodes.countP
            (fun n => decide (n.Vote = VoteState.VoteReject)) ≥ c.quorum →
          handleVoteResponse d c msg =
            d.backToFollower (recordVote c msg node) msg.Term InvalidID) ∧
        ((recordVote c msg node).nodes.countP
            (fun n => decide (n.Vote = VoteState.VoteReject)) < c.quorum →
          handleVoteResponse d c msg = some (recordVote c msg node) ∧
            (recordVote c msg node).state = c.state))) ∧
    ((∀ x t l y, d.backToFollower x t l = some y → y.state = Role.RoleFollower) →
      c.state ≠ Role.RoleLeader →
      (∀ (msg : Message) (c2 : Core), handleVoteResponse d c msg = some c2 →
        c2.state = Role.RoleLeader →
        ∃ node, c.getNodeByID msg.From = some node ∧
          (recordVote c msg node).nodes.countP
            (fun n => decide (n.Vote = VoteState.VoteGranted)) + 1 ≥ c.quorum) ∧
      (∀ (R : List Nat) (msgs : List Message),
        (∀ m ∈ msgs, (m.MsgType = MessageType.MsgVoteResponse ∨
          m.MsgType = MessageType.MsgPreVoteResponse) ∧ m.From ∈ R) →
        (∀ n ∈ c.nodes, n.Vote = VoteState.VoteGranted → n.ID ∈ R) →
        c.nodes.countP (fun n => decide (n.ID ∈ R)) + 1 < c.quorum →
        ∀ c2, dispatchAll d c msgs = some c2 → c2.state ≠ Role.RoleLeader)) := by
  refine ⟨rfl, fun msg node hpeer => ?_, fun hback hst => ⟨fun msg c2 h2 hl => ?_,
    fun R msgs hall hsub hfew c2 h2 =>
      dispatchAll_vote_responses_safe d R hback msgs c hall hst (Or.inr ⟨hsub, hfew⟩) c2 h2⟩⟩
  · have hid : node.ID = msg.From := find_ID msg.From node c.nodes hpeer
    have hq := recordVote_quorum c msg node
    have heq := handleVoteResponse_eq d c msg node hpeer
    rw [hq, voteStateCount_eq_count, voteStateCount_eq_count] at heq
    refine ⟨?_, fun id hne => ?_, fun hg => ⟨fun ht => ?_, fun ht => ?_⟩,
      fun hg => ⟨fun hr => ?_, fun hr => ⟨?_, rfl⟩⟩⟩
    · have := setNode_find_eq msg.From (node.UpdateVoteState msg.Reject) node hid c.nodes hpeer
      simpa only [recordVote, Core.getNodeByID, Node.UpdateVoteState] using this
    · exact setNode_find_ne msg.From id (node.UpdateVoteState msg.Reject) hid hne c.nodes
    · rw [heq, if_pos hg, if_pos ht]
    · rw [heq, if_pos hg, if_neg (by rw [ht]; decide)]
    · rw [heq, if_neg (by omega), if_pos hr]
    · rw [heq, if_neg (by omega), if_neg (by omega)]
  · cases hpeer : c.getNodeByID msg.From with
    | none => rw [handleVoteResponse_none d c msg hpeer] at h2; exact absurd h2 (by simp)
    | some node =>
      refine ⟨node, rfl, ?_⟩
      by_contra hng
      have heq := handleVoteResponse_eq d c msg node hpeer
      rw [recordVote_quorum, voteStateCount_eq_count, voteStateCount_eq_count] at heq
      rw [heq, if_neg hng] at h2
      by_cases hrej : (recordVote c msg node).nodes.countP
          (fun n => decide (n.Vote = VoteState.VoteReject)) ≥ c.quorum
      · rw [if_pos hrej] at h2
        have hf := hback _ _ _ _ h2
        rw [hf] at hl
        exact absurd hl (by decide)
      · rw [if_neg hrej] at h2
        have e : c2 = recordVote c msg node := (Option.some.inj h2).symm
        rw [e] at hl
        exact hst hl

/-- Witness of the amended C5, with the transitions as the specification
describes them.  In the cluster of three (quorum 2) the granted vote of node 2
is the one peer marked `Granted`, which with the candidate itself reaches the
quorum: `becomeLeader` and `broadcastVictory` are called, and the candidate is
leader afterwards.  In the cluster of five (quorum 3) node 1 as candidate, no
peer marked, reaches node 2 only; after the granted votes of node 2 it is not
leader: it is still candidate, with node 2 marked `Granted`. -/
theorem handleVoteResponse_outcome_witness :
    ({ exCore with state := Role.RoleCandidate, vote := 1 } : Core).quorum = 2 ∧
    handleVoteResponse specDeps { exCore with state := Role.RoleCandidate, vote := 1 }
        (exMsg MessageType.MsgVoteResponse 2 1) =
      (specDeps.becomeLeader (recordVote { exCore with state := Role.RoleCandidate, vote := 1 }
        (exMsg MessageType.MsgVoteResponse 2 1) (exNode 2))).bind specDeps.broadcastVictory ∧
    (handleVoteResponse specDeps { exCore with state := Role.RoleCandidate, vote := 1 }
      (exMsg MessageType.MsgVoteResponse 2 1)).map
        (fun c => (c.state, c.nodes.map (fun n => (n.ID, n.Vote)))) =
      some (Role.RoleLeader, [(2, VoteState.VoteGranted), (3, VoteState.VotePending)]) ∧
    exCandidate5.quorum = 3 ∧
    (∀ c2, dispatchAll specDeps exCandidate5
        [{ exMsg MessageType.MsgVoteResponse 2 2 with Reject := false },
         { exMsg MessageType.MsgVoteResponse 2 2 with Reject := false }] = some c2 →
      c2.state ≠ Role.RoleLeader) ∧
    (dispatchAll specDeps exCandidate5
        [{ exMsg MessageType.MsgVoteResponse 2 2 with Reject := false },
         { exMsg MessageType.MsgVoteResponse 2 2 with Reject := false }]).map
        (fun c => (c.state, c.nodes.map (fun n => (n.ID, n.Vote)))) =
      some (Role.RoleCandidate, [(2, VoteState.VoteGranted), (3, VoteState.VotePending),
        (4, VoteState.VotePending), (5, VoteState.VotePending)]) :=
  ⟨(handleVoteResponse_outcome specDeps { exCore with state := Role.RoleCandidate, vote := 1 }).1,
   (((handleVoteResponse_outcome specDeps
      { exCore with state := Role.RoleCandidate, vote := 1 }).2.1
      (exMsg MessageType.MsgVoteResponse 2 1) (exNode 2) rfl).2.2.1 (by decide)).1 rfl,
   by decide,
   (handleVoteResponse_outcome specDeps exCandidate5).1,
   ((handleVoteResponse_outcome specDeps exCandidate5).2.2
      (fun _ _ _ _ h => by cases h; rfl) (by decide)).2 [2]
    [{ exMsg MessageType.MsgVoteResponse 2 2 with Reject := false },
     { exMsg MessageType.MsgVoteResponse 2 2 with Reject := false }]
    (by decide) (by decide) (by decide),
   by decide⟩

/-- C5, as stated, fails in its last clause: the tally counts the marks that
are there, and the response handled need not be a granted one.  Node 1 of the
cluster of five (quorum 3) is candidate at term 2 with the nodes 2 and 3 marked
`Granted`; it reaches node 4 only, one peer where the quorum needs two, and
node 4 rejects.  `handleVoteResponse` records the rejection, counts two peers
marked `Granted` plus itself, and calls `becomeLeader` and `broadcastVictory`,
whatever these do; with the transitions as the specification describes them the
node is leader afterwards.  The marks are those a pre-candidate is left with
after the granted pre-votes of the nodes 2 and 3, `campaign` being run as the
specification describes it. -/
theorem handleVoteResponse_stale_marks_counterexample :
    (exStale5.state, exStale5.term, exStale5.quorum) = (Role.RoleCandidate, 2, 3) ∧
    exStale5.nodes.map (fun n => (n.ID, n.Vote)) =
      [(2, VoteState.VoteGranted), (3, VoteState.VoteGranted),
       (4, VoteState.VotePending), (5, VoteState.VotePending)] ∧
    exStale5.nodes.countP (fun n => decide (n.ID ∈ [4])) + 1 = 2 ∧
    (∀ d : Deps,
      handleVoteResponse d exStale5 { exMsg MessageType.MsgVoteResponse 4 2 with Reject := true } =
        (d.becomeLeader (recordVote exStale5
          { exMsg MessageType.MsgVoteResponse 4 2 with Reject := true } (exNode 4))).bind
          d.broadcastVictory) ∧
    (dispatchAll specDeps exStale5
      [{ exMsg MessageType.MsgVoteResponse 4 2 with Reject := true }]).map
        (fun c => (c.state, c.nodes.map (fun n => (n.ID, n.Vote)))) =
      some (Role.RoleLeader,
        [(2, VoteState.VoteGranted), (3, VoteState.VoteGranted),
         (4, VoteState.VoteReject), (5, VoteState.VotePending)]) ∧
    (dispatchAll specDeps exPre5
      [exMsg MessageType.MsgPreVoteResponse 2 2, exMsg MessageType.MsgPreVoteResponse 3 2]).map
        (fun c => (c.state, c.term, c.vote, c.nodes)) =
      some (exStale5.state, exStale5.term, exStale5.vote, exStale5.nodes) := by
  refine ⟨by decide, by decide, by decide, fun d => ?_, by decide, by decide⟩
  have heq := handleVoteResponse_eq d exStale5
    { exMsg MessageType.MsgVoteResponse 4 2 with Reject := true } (exNode 4) rfl
  rw [heq, if_pos (by decide)]
  rfl

/-- The outcomes of C5 on concrete states, with the transitions as the
specification describes them: in the cluster of three a candidate becomes
leader on the first granted vote (quorum 2); in the cluster of five the run of
the witness ends as candidate with node 2 marked `Granted`; a pre-candidate in
the cluster of three becomes candidate on the first granted pre-vote; a
candidate in the cluster of three whose other peer has rejected falls back to
follower on the second rejection. -/
theorem handleVoteResponse_examples :
    (handleVoteResponse specDeps { exCore with state := Role.RoleCandidate, vote := 1 }
      (exMsg MessageType.MsgVoteResponse 2 1)).map (fun c => c.state) =
        some Role.RoleLeader ∧
    (dispatchAll specDeps exCandidate5
      [{ exMsg MessageType.MsgVoteResponse 2 2 with Reject := false },
       { exMsg MessageType.MsgVoteResponse 2 2 with Reject := false }]).map
        (fun c => (c.state, c.nodes.map (fun n => n.Vote))) =
      some (Role.RoleCandidate, [VoteState.VoteGranted, VoteState.VotePending,
        VoteState.VotePending, VoteState.VotePending]) ∧
    (handleVoteResponse specDeps exPreCandidate
      (exMsg MessageType.MsgPreVoteResponse 2 2)).map (fun c => c.state) =
        some Role.RoleCandidate ∧
    (handleVoteResponse specDeps
      { exCore with state := Role.RoleCandidate, vote := 1,
                    nodes := [exNode 2, { exNode 3 with Vote := VoteState.VoteReject }] }
      { exMsg MessageType.MsgVoteResponse 2 1 with Reject := true }).map
        (fun c => (c.state, c.leaderID)) = some (Role.RoleFollower, InvalidID) := by
  decide

/-- C7, as stated, fails: node 1, pre-candidate at term 1 in the cluster of
three, receives the granted `PreVoteResponse` of node 2; that completes the
quorum, the node campaigns, and afterwards it is candidate at term 2 having
voted for itself.  And when node 3 has rejected already, the rejection of
node 2 completes the quorum of rejections and the node is follower afterwards. -/
theorem dispatch_preVoteResponse_counterexample :
    (exPreCandidate.state, exPreCandidate.term, exPreCandidate.vote) =
      (Role.RolePrevCandidate, 1, InvalidID) ∧
    (dispatch specDeps exPreCandidate (exMsg MessageType.MsgPreVoteResponse 2 2)).map
      (fun c => (c.state, c.term, c.vote)) = some (Role.RoleCandidate, 2, 1) ∧
    (dispatch specDeps
      { exPreCandidate with nodes := [exNode 2, { exNode 3 with Vote := VoteState.VoteReject }] }
      { exMsg MessageType.MsgPreVoteResponse 2 1 with Reject := true }).map
      (fun c => c.state) = some Role.RoleFollower := by
  decide

/-- C7, amended: a pre-candidate that receives the `PreVoteResponse` of a peer
(`dispatch`, `stepCandidate`, `handleVoteResponse`) keeps its term, vote, role
and commit index whenever the response completes neither a quorum of granted
pre-votes nor a quorum of rejections: then only the sender's vote state is
recorded.  When the granted peers plus one reach the quorum the outcome is
that of `campaign`, and when the rejections reach it, that of
`backToFollower(msg.Term, InvalidID)`. -/
theorem dispatch_preVoteResponse_frame (d : Deps) (c : Core) (msg : Message) (node : Node)
    (hrole : c.state = Role.RolePrevCandidate)
    (htype : msg.MsgType = MessageType.MsgPreVoteResponse)
    (hpeer : c.getNodeByID msg.From = some node) :
    (voteStateCount (recordVote c msg node) VoteState.VoteGranted + 1 < c.quorum →
      voteStateCount (recordVote c msg node) VoteState.VoteReject < c.quorum →
      ∃ c2, dispatch d c msg = some c2 ∧ c2 = recordVote c msg node ∧
        c2.term = c.term ∧ c2.vote = c.vote ∧ c2.state = c.state ∧
        c2.log.CommitIndex = c.log.CommitIndex) ∧
    (voteStateCount (recordVote c msg node) VoteState.VoteGranted + 1 ≥ c.quorum →
      dispatch d c msg = d.campaign (recordVote c msg node)) ∧
    (voteStateCount (recordVote c msg node) VoteState.VoteGranted + 1 < c.quorum →
      voteStateCount (recordVote c msg node) VoteState.VoteReject ≥ c.quorum →
      dispatch d c msg = d.backToFollower (recordVote c msg node) msg.Term InvalidID) := by
  have hd : dispatch d c msg = handleVoteResponse d c msg := by
    simp only [dispatch, hrole, stepCandidate, htype]
    simp
  have heq := handleVoteResponse_eq d c msg node hpeer
  rw [recordVote_quorum] at heq
  refine ⟨fun hg hr => ⟨recordVote c msg node, ?_, rfl, rfl, rfl, rfl, rfl⟩, fun hg => ?_,
    fun hg hr => ?_⟩
  · rw [hd, heq, if_neg (by omega), if_neg (by omega)]
  · rw [hd, heq, if_pos hg, if_neg (by rw [htype]; decide)]
  · rw [hd, heq, if_neg (by omega), if_pos hr]

/-- Witness of C7, amended: a pre-candidate in the cluster of five receives the
granted pre-vote of node 2: one granted peer plus itself is below the quorum
of 3. -/
theorem dispatch_preVoteResponse_frame_witness :
    ∃ c2, dispatch specDeps { exCandidate5 with state := Role.RolePrevCandidate }
        (exMsg MessageType.MsgPreVoteResponse 2 3) = some c2 ∧
      c2 = recordVote { exCandidate5 with state := Role.RolePrevCandidate }
        (exMsg MessageType.MsgPreVoteResponse 2 3) (exNode 2) ∧
      c2.term = 2 ∧ c2.vote = 1 ∧ c2.state = Role.RolePrevCandidate ∧
      c2.log.CommitIndex = 0 :=
  (dispatch_preVoteResponse_frame specDeps { exCandidate5 with state := Role.RolePrevCandidate }
    (exMsg MessageType.MsgPreVoteResponse 2 3) (exNode 2) rfl rfl (by decide)).1
    (by decide) (by decide)

/-! ## Appends, heartbeats and the commit index at a follower -/

/-- The utility `MinUint64` is the minimum. -/
theorem MinUint64_eq_min (a b : Nat) : MinUint64 a b = min a b := by
  unfold MinUint64
  split <;> omega

/-- What `handleAppendEntries` does when the append is not stale, by the
result of `TryAppend`. -/
theorem handleAppendEntries_tryAppend (d : Deps) (c : Core) (msg : Message)
    (h : c.log.CommitIndex ≤ msg.LogIndex) (l : RaftLog) (idx : Nat) (ok : Bool)
    (ht : d.TryAppend c.log msg.LogIndex msg.LogTerm msg.Entries = (l, idx, ok)) :
    handleAppendEntries d c msg =
      if ok = true then
        Core.send { c with log := d.CommitTo l (min msg.Index idx) }
          { Message.mk0 MessageType.MsgAppendResponse msg.From with
            Index := msg.LogIndex, RejectHint := idx, Reject := false }
      else
        Core.send { c with log := l }
          { Message.mk0 MessageType.MsgAppendResponse msg.From with
            Index := msg.LogIndex, RejectHint := idx, Reject := true } := by
  have hn : ¬ (c.log.CommitIndex > msg.LogIndex) := by omega
  cases ok with
  | true => simp only [handleAppendEntries, if_neg hn, ht, MinUint64_eq_min, if_true]
  | false => simp [handleAppendEntries, if_neg hn, ht]

/-- C11: when `msg.LogIndex >= commitIndex`, with `(idx, ok)` the result of
`log.TryAppend(msg.LogIndex, msg.LogTerm, msg.Entries)`: if `ok`,
`handleAppendEntries` calls `log.CommitTo(min(msg.Index, idx))` and replies
`Index = msg.LogIndex`, `RejectHint = idx`, `Reject = false`; if not `ok`, it
replies `Index = msg.LogIndex`, `RejectHint = idx`, `Reject = true` and does
not call `CommitTo`: the log is as `TryAppend` left it, so the commit index is
unchanged when the failed `TryAppend` left it unchanged. -/
theorem handleAppendEntries_current (d : Deps) (c : Core) (msg : Message)
    (h : c.log.CommitIndex ≤ msg.LogIndex) :
    (∀ (l : RaftLog) (idx : Nat),
      d.TryAppend c.log msg.LogIndex msg.LogTerm msg.Entries = (l, idx, true) →
      handleAppendEntries d c msg =
        Core.send { c with log := d.CommitTo l (min msg.Index idx) }
          { Message.mk0 MessageType.MsgAppendResponse msg.From with
            Index := msg.LogIndex, RejectHint := idx, Reject := false } ∧
      (handleAppendEntries d c msg).log = d.CommitTo l (min msg.Index idx)) ∧
    (∀ (l : RaftLog) (idx : Nat),
      d.TryAppend c.log msg.LogIndex msg.LogTerm msg.Entries = (l, idx, false) →
      handleAppendEntries d c msg =
        Core.send { c with log := l }
          { Message.mk0 MessageType.MsgAppendResponse msg.From with
            Index := msg.LogIndex, RejectHint := idx, Reject := true } ∧
      (handleAppendEntries d c msg).log = l ∧
      (l.CommitIndex = c.log.CommitIndex →
        (handleAppendEntries d c msg).log.CommitIndex = c.log.CommitIndex)) := by
  refine ⟨fun l idx ht => ?_, fun l idx ht => ?_⟩
  · have e := handleAppendEntries_tryAppend d c msg h l idx true ht
    rw [if_pos rfl] at e
    exact ⟨e, by rw [e]; rfl⟩
  · have e := handleAppendEntries_tryAppend d c msg h l idx false ht
    rw [if_neg (by simp)] at e
    refine ⟨e, by rw [e]; rfl, fun hl => ?_⟩
    rw [e]
    exact hl

/-- Witness of C11: the follower with the empty log receives the three
entries of `exLog3` with leader commit 2 (accepted, committed up to 2, hint
3), and an append after index 4, which it does not have (rejected). -/
theorem handleAppendEntries_current_witness :
    ((handleAppendEntries specDeps exCore
        { exMsg MessageType.MsgAppendRequest 2 1 with Entries := exLog3.entries, Index := 2 }).log
        = exLog3 ∧
      (handleAppendEntries specDeps exCore
        { exMsg MessageType.MsgAppendRequest 2 1 with Entries := exLog3.entries, Index := 2
          }).callback.sent.map (fun r => (r.To, r.Index, r.RejectHint, r.Reject)) =
        [(2, 0, 3, false)]) ∧
    (handleAppendEntries specDeps exCore
        { exMsg MessageType.MsgAppendRequest 2 1 with LogIndex := 4, LogTerm := 1 }).log.CommitIndex
        = exCore.log.CommitIndex :=
  ⟨by
      have e := ((handleAppendEntries_current specDeps exCore
        { exMsg MessageType.MsgAppendRequest 2 1 with Entries := exLog3.entries, Index := 2 }
        (by decide)).1 { exLog3 with committed := 0 } 3 (by decide)).1
      rw [e]
      decide,
    ((handleAppendEntries_current specDeps exCore
        { exMsg MessageType.MsgAppendRequest 2 1 with LogIndex := 4, LogTerm := 1 }
        (by decide)).2 exLog 0 (by decide)).2.2 rfl⟩

/-- C14: `handleHeartbeat` calls `log.CommitTo(msg.Index)` and sends exactly
one `HeartbeatResponse`, with `To = msg.From`, `Reject = false` and the
context of the request unchanged; nothing else changes. -/
theorem handleHeartbeat_reply (d : Deps) (c : Core) (msg : Message) :
    ∃ reply : Message,
      handleHeartbeat d c msg = Core.send { c with log := d.CommitTo c.log msg.Index } reply ∧
      (handleHeartbeat d c msg).log = d.CommitTo c.log msg.Index ∧
      (handleHeartbeat d c msg).callback.sent = c.callback.sent ++ [reply] ∧
      reply.MsgType = MessageType.MsgHeartbeatResponse ∧
      reply.To = msg.From ∧ reply.Reject = false ∧ reply.Context = msg.Context :=
  ⟨{ Message.mk0 MessageType.MsgHeartbeatResponse msg.From with
      Reject := false, Context := msg.Context }, rfl, rfl, rfl, rfl, rfl, rfl, rfl⟩

/-- An instance of C14: the follower with the log `exLog3` (commit index 2)
receives a heartbeat with index 3 and context `[9]` from node 2. -/
theorem handleHeartbeat_example :
    (handleHeartbeat specDeps { exCore with log := exLog3 }
        { exMsg MessageType.MsgHeartbeatRequest 2 1 with Index := 3, Context := [9] }).log.committed
        = 3 ∧
    (handleHeartbeat specDeps { exCore with log := exLog3 }
        { exMsg MessageType.MsgHeartbeatRequest 2 1 with Index := 3, Context := [9]
          }).callback.sent.map (fun r => (r.MsgType, r.To, r.Reject, r.Context)) =
      [(MessageType.MsgHeartbeatResponse, 2, false, [9])] := by
  decide

/-! ## Snapshots at a follower -/

/-- The method `tryRestore` on a snapshot that is not nil. -/
theorem tryRestore_some (d : Deps) (c : Core) (s : Snapshot) :
    tryRestore d c (some s) =
      some (decide (s.Metadata.Index > c.log.CommitIndex ∧
        d.Term c.log s.Metadata.Index ≠ s.Metadata.Term)) := by
  unfold tryRestore
  by_cases h1 : s.Metadata.Index ≤ c.log.CommitIndex
  · have : ¬ (s.Metadata.Index > c.log.CommitIndex) := by omega
    simp [h1, this]
  · by_cases h2 : d.Term c.log s.Metadata.Index = s.Metadata.Term
    · simp [h1, h2]
    · have : s.Metadata.Index > c.log.CommitIndex := by omega
      simp [h1, h2, this]

/-- The method `handleSnapshot` on a message whose snapshot is not nil, by the
result of `tryRestore`. -/
theorem handleSnapshot_some (d : Deps) (c : Core) (msg : Message) (s : Snapshot)
    (hs : msg.Snapshot = some s) :
    handleSnapshot d c msg =
      if s.Metadata.Index > c.log.CommitIndex ∧
          d.Term c.log s.Metadata.Index ≠ s.Metadata.Term then
        (d.ApplySnapshot
          { c with callback :=
            { c.callback with appliedSnapshots := c.callback.appliedSnapshots ++ [s] } }
          s.Metadata).bind fun c1 =>
            some (c1.send { Message.mk0 MessageType.MsgSnapshotResponse msg.From with
              Reject := false, Index := s.Metadata.Index, RejectHint := d.LastIndex c1.log })
      else
        some (c.send { Message.mk0 MessageType.MsgSnapshotResponse msg.From with
          Reject := false, Index := s.Metadata.Index, RejectHint := c.log.CommitIndex }) := by
  by_cases h : s.Metadata.Index > c.log.CommitIndex ∧
      d.Term c.log s.Metadata.Index ≠ s.Metadata.Term
  · have ht : tryRestore d c (some s) = some true := by
      rw [tryRestore_some]; simp [h]
    simp only [handleSnapshot, hs, ht, if_pos h]
  · have ht : tryRestore d c (some s) = some false := by
      rw [tryRestore_some]; simp [h]
    simp only [handleSnapshot, hs, ht, if_neg h]

/-- C12: monotonic commit.  Assume that `CommitTo` only moves the commit index
forward, that `TryAppend` does not lower it, and that applying the metadata of
a snapshot beyond the commit index does not lower it.  Then the commit index
after `handleAppendEntries`, after `handleHeartbeat` and after
`handleSnapshot` is greater than or equal to the commit index before, for
every state and every message. -/
theorem commitIndex_monotone (d : Deps)
    (hCommit : ∀ (l : RaftLog) (i : Nat), l.CommitIndex ≤ (d.CommitTo l i).CommitIndex)
    (hTry : ∀ (l : RaftLog) (p t : Nat) (es : List Entry),
      l.CommitIndex ≤ (d.TryAppend l p t es).1.CommitIndex)
    (hSnap : ∀ (c : Core) (m : SnapshotMetadata) (c1 : Core),
      c.log.CommitIndex < m.Index → d.ApplySnapshot c m = some c1 →
      c.log.CommitIndex ≤ c1.log.CommitIndex)
    (c : Core) (msg : Message) :
    c.log.CommitIndex ≤ (handleAppendEntries d c msg).log.CommitIndex ∧
    c.log.CommitIndex ≤ (handleHeartbeat d c msg).log.CommitIndex ∧
    ∀ c2, handleSnapshot d c msg = some c2 → c.log.CommitIndex ≤ c2.log.CommitIndex := by
  refine ⟨?_, hCommit c.log msg.Index, fun c2 h2 => ?_⟩
  · by_cases h : c.log.CommitIndex ≤ msg.LogIndex
    · rcases hr : d.TryAppend c.log msg.LogIndex msg.LogTerm msg.Entries with ⟨l, idx, ok⟩
      have hl : c.log.CommitIndex ≤ l.CommitIndex := by
        have := hTry c.log msg.LogIndex msg.LogTerm msg.Entries
        rw [hr] at this
        exact this
      rw [handleAppendEntries_tryAppend d c msg h l idx ok hr]
      cases ok with
      | true => exact le_trans hl (hCommit l _)
      | false => exact hl
    · have hlt : msg.LogIndex < c.log.CommitIndex := by omega
      have e : handleAppendEntries d c msg = c.send
          { Message.mk0 MessageType.MsgAppendResponse msg.From with
            Index := msg.LogIndex, RejectHint := c.log.CommitIndex, Reject := false } := by
        simp only [handleAppendEntries, gt_iff_lt, if_pos hlt]
      rw [e]
      exact le_refl _
  · cases hs : msg.Snapshot with
    | none =>
      simp [handleSnapshot, hs] at h2
    | some s =>
      rw [handleSnapshot_some d c msg s hs] at h2
      by_cases h : s.Metadata.Index > c.log.CommitIndex ∧
          d.Term c.log s.Metadata.Index ≠ s.Metadata.Term
      · rw [if_pos h] at h2
        cases ha : d.ApplySnapshot
            { c with callback :=
              { c.callback with appliedSnapshots := c.callback.appliedSnapshots ++ [s] } }
            s.Metadata with
        | none => rw [ha] at h2; exact absurd h2 (by simp)
        | some c1 =>
          rw [ha] at h2
          have e : c2 = c1.send { Message.mk0 MessageType.MsgSnapshotResponse msg.From with
              Reject := false, Index := s.Metadata.Index, RejectHint := d.LastIndex c1.log } :=
            (Option.some.inj h2).symm
          rw [e]
          exact hSnap { c with callback :=
            { c.callback with appliedSnapshots := c.callback.appliedSnapshots ++ [s] } }
            s.Metadata c1 h.1 ha
      · rw [if_neg h] at h2
        have e : c2 = c.send { Message.mk0 MessageType.MsgSnapshotResponse msg.From with
            Reject := false, Index := s.Metadata.Index, RejectHint := c.log.CommitIndex } :=
          (Option.some.inj h2).symm
        rw [e]
        exact le_refl _

/-- The model of the log holder never lowers the commit index in `CommitTo`. -/
theorem spec_CommitTo_ge (l : RaftLog) (i : Nat) :
    l.CommitIndex ≤ (specDeps.CommitTo l i).CommitIndex :=
  le_max_left _ _

/-- The model of the log holder keeps the commit index in `TryAppend`. -/
theorem spec_TryAppend_ge (l : RaftLog) (p t : Nat) (es : List Entry) :
    l.CommitIndex ≤ (specDeps.TryAppend l p t es).1.CommitIndex := by
  show l.committed ≤ (Spec.TryAppend l p t es).1.committed
  unfold Spec.TryAppend
  split
  · split <;> exact le_refl _
  · exact le_refl _

/-- The model of `ApplySnapshot` commits the snapshot. -/
theorem spec_ApplySnapshot_ge (c : Core) (m : SnapshotMetadata) (c1 : Core)
    (h : c.log.CommitIndex < m.Index) (ha : specDeps.ApplySnapshot c m = some c1) :
    c.log.CommitIndex ≤ c1.log.CommitIndex := by
  have e : c1 = Spec.ApplySnapshot c m := (Option.some.inj ha).symm
  rw [e]
  exact le_of_lt h

/-- Witness of C12: with the log holder as the specification describes it, the
follower with the log `exLog3` (commit index 2) handles an append, a heartbeat
and a snapshot. -/
theorem commitIndex_monotone_witness :
    2 ≤ (handleAppendEntries specDeps { exCore with log := exLog3 }
      { exMsg MessageType.MsgAppendRequest 2 1 with LogIndex := 3, LogTerm := 1, Index := 3
        }).log.CommitIndex ∧
    2 ≤ (handleHeartbeat specDeps { exCore with log := exLog3 }
      { exMsg MessageType.MsgAppendRequest 2 1 with LogIndex := 3, LogTerm := 1, Index := 3
        }).log.CommitIndex ∧
    ∀ c2, handleSnapshot specDeps { exCore with log := exLog3 }
      { exMsg MessageType.MsgAppendRequest 2 1 with LogIndex := 3, LogTerm := 1, Index := 3 }
        = some c2 → 2 ≤ c2.log.CommitIndex :=
  commitIndex_monotone specDeps spec_CommitTo_ge spec_TryAppend_ge spec_ApplySnapshot_ge
    { exCore with log := exLog3 }
    { exMsg MessageType.MsgAppendRequest 2 1 with LogIndex := 3, LogTerm := 1, Index := 3 }

/-- The commit index on concrete messages, with the log holder as the
specification describes it: from commit index 2, an append after index 3 with
leader commit 3 and a heartbeat with index 3 commit up to 3, a heartbeat with
index 1 leaves the commit index at 2, and the snapshot up to index 5 commits
up to 5. -/
theorem commitIndex_examples :
    (handleAppendEntries specDeps { exCore with log := exLog3 }
      { exMsg MessageType.MsgAppendRequest 2 1 with LogIndex := 3, LogTerm := 1, Index := 3
        }).log.CommitIndex = 3 ∧
    (handleHeartbeat specDeps { exCore with log := exLog3 }
      { exMsg MessageType.MsgHeartbeatRequest 2 1 with Index := 3 }).log.CommitIndex = 3 ∧
    (handleHeartbeat specDeps { exCore with log := exLog3 }
      { exMsg MessageType.MsgHeartbeatRequest 2 1 with Index := 1 }).log.CommitIndex = 2 ∧
    (handleSnapshot specDeps { exCore with log := exLog3 }
      { exMsg MessageType.MsgSnapshotRequest 2 1 with Snapshot := some exSnapshot }).map
        (fun c => c.log.CommitIndex) = some 5 := by
  decide

/-- C15: for a snapshot that is not nil, `tryRestore` returns true if and only
if `snapshot.Metadata.Index > commitIndex` and
`log.Term(snapshot.Metadata.Index) != snapshot.Metadata.Term`.  When it is
true, `handleSnapshot` hands the snapshot to the host (`callback.applySnapshot`)
and then updates the log metadata (`ApplySnapshot`); otherwise it calls
neither: the snapshots the host was handed and the log are unchanged. -/
theorem snapshot_restore_iff (d : Deps) (c : Core) (msg : Message) (s : Snapshot)
    (hs : msg.Snapshot = some s) :
    (tryRestore d c msg.Snapshot = some true ∨ tryRestore d c msg.Snapshot = some false) ∧
    (tryRestore d c msg.Snapshot = some true ↔
      s.Metadata.Index > c.log.CommitIndex ∧
        d.Term c.log s.Metadata.Index ≠ s.Metadata.Term) ∧
    (tryRestore d c msg.Snapshot = some true →
      ∃ reply : Core → Message,
        handleSnapshot d c msg =
          (d.ApplySnapshot
            { c with callback :=
              { c.callback with appliedSnapshots := c.callback.appliedSnapshots ++ [s] } }
            s.Metadata).bind fun c1 => some (c1.send (reply c1))) ∧
    (tryRestore d c msg.Snapshot = some false →
      ∃ c2, handleSnapshot d c msg = some c2 ∧ c2.log = c.log ∧
        c2.callback.appliedSnapshots = c.callback.appliedSnapshots ∧
        c2.nodes = c.nodes ∧ c2.readOnly = c.readOnly) := by
  have ht := tryRestore_some d c s
  have hh := handleSnapshot_some d c msg s hs
  rw [hs]
  by_cases h : s.Metadata.Index > c.log.CommitIndex ∧
      d.Term c.log s.Metadata.Index ≠ s.Metadata.Term
  · rw [decide_eq_true h] at ht
    rw [if_pos h] at hh
    refine ⟨Or.inl ht, ⟨fun _ => h, fun _ => ht⟩, fun _ => ⟨_, hh⟩, fun hf => ?_⟩
    rw [ht] at hf
    exact absurd hf (by simp)
  · rw [decide_eq_false h] at ht
    rw [if_neg h] at hh
    refine ⟨Or.inr ht, ⟨fun hf => ?_, fun hc => absurd hc h⟩, fun hf => ?_,
      fun _ => ⟨_, hh, rfl, rfl, rfl, rfl⟩⟩
    · rw [ht] at hf; exact absurd hf (by simp)
    · rw [ht] at hf; exact absurd hf (by simp)

/-- Witness of C15: the follower with the empty log accepts the snapshot up to
index 5. -/
theorem snapshot_restore_iff_witness :
    tryRestore specDeps exCore (some exSnapshot) = some true ↔
      exSnapshot.Metadata.Index > exCore.log.CommitIndex ∧
        specDeps.Term exCore.log exSnapshot.Metadata.Index ≠ exSnapshot.Metadata.Term :=
  (snapshot_restore_iff specDeps exCore
    { exMsg MessageType.MsgSnapshotRequest 2 1 with Snapshot := some exSnapshot }
    exSnapshot rfl).2.1

/-- C16: `handleSnapshot` sends exactly one `SnapshotResponse` to `msg.From`
with `Reject = false` and `Index = msg.Snapshot.Metadata.Index` in both
branches.  When the snapshot is accepted, `RejectHint` is `log.LastIndex()`
read after the snapshot metadata has been applied; when it is ignored,
`RejectHint` is the current commit index. -/
theorem handleSnapshot_reply (d : Deps) (c : Core) (msg : Message) (s : Snapshot)
    (hs : msg.Snapshot = some s) :
    (s.Metadata.Index > c.log.CommitIndex ∧ d.Term c.log s.Metadata.Index ≠ s.Metadata.Term →
      ∀ c1, d.ApplySnapshot
          { c with callback :=
            { c.callback with appliedSnapshots := c.callback.appliedSnapshots ++ [s] } }
          s.Metadata = some c1 →
        ∃ reply : Message,
          handleSnapshot d c msg = some (c1.send reply) ∧
          reply.MsgType = MessageType.MsgSnapshotResponse ∧ reply.To = msg.From ∧
          reply.Reject = false ∧ reply.Index = s.Metadata.Index ∧
          reply.RejectHint = d.LastIndex c1.log) ∧
    (¬ (s.Metadata.Index > c.log.CommitIndex ∧
        d.Term c.log s.Metadata.Index ≠ s.Metadata.Term) →
      ∃ reply : Message,
        handleSnapshot d c msg = some (c.send reply) ∧
        reply.MsgType = MessageType.MsgSnapshotResponse ∧ reply.To = msg.From ∧
        reply.Reject = false ∧ reply.Index = s.Metadata.Index ∧
        reply.RejectHint = c.log.CommitIndex) := by
  have hh := handleSnapshot_some d c msg s hs
  refine ⟨fun h c1 ha => ?_, fun h => ?_⟩
  · rw [if_pos h, ha] at hh
    exact ⟨_, hh, rfl, rfl, rfl, rfl, rfl⟩
  · rw [if_neg h] at hh
    exact ⟨_, hh, rfl, rfl, rfl, rfl, rfl⟩

/-- Witness of C16: the follower with the empty log accepts the snapshot up to
index 5 and answers with hint 5, the last index after the metadata is applied;
the follower with the log `exLog3` ignores a snapshot up to its commit index 2
and answers with hint 2. -/
theorem handleSnapshot_reply_witness :
    (∃ reply : Message,
      handleSnapshot specDeps exCore
          { exMsg MessageType.MsgSnapshotRequest 2 1 with Snapshot := some exSnapshot } =
        some (Core.send (Spec.ApplySnapshot
          { exCore with callback := { exCore.callback with appliedSnapshots := [exSnapshot] } }
          exSnapshot.Metadata) reply) ∧
      reply.MsgType = MessageType.MsgSnapshotResponse ∧ reply.To = 2 ∧
      reply.Reject = false ∧ reply.Index = 5 ∧ reply.RejectHint = 5) ∧
    (∃ reply : Message,
      handleSnapshot specDeps { exCore with log := exLog3 }
          { exMsg MessageType.MsgSnapshotRequest 2 1 with
            Snapshot := some { exSnapshot with Metadata := { Index := 2, Term := 1 } } } =
        some (Core.send { exCore with log := exLog3 } reply) ∧
      reply.MsgType = MessageType.MsgSnapshotResponse ∧ reply.To = 2 ∧
      reply.Reject = false ∧ reply.Index = 2 ∧ reply.RejectHint = 2) :=
  ⟨(handleSnapshot_reply specDeps exCore
      { exMsg MessageType.MsgSnapshotRequest 2 1 with Snapshot := some exSnapshot }
      exSnapshot rfl).1 (by decide) _ rfl,
    (handleSnapshot_reply specDeps { exCore with log := exLog3 }
      { exMsg MessageType.MsgSnapshotRequest 2 1 with
        Snapshot := some { exSnapshot with Metadata := { Index := 2, Term := 1 } } }
      { exSnapshot with Metadata := { Index := 2, Term := 1 } } rfl).2 (by decide)⟩

/-! ## Heartbeats and read-index requests at the leader -/

/-- The method `sendHeartbeat` sends the heartbeat of `heartbeatFor`. -/
theorem sendHeartbeat_eq (c : Core) (node : Node) (context : List Nat) :
    sendHeartbeat c node context = c.send (heartbeatFor c context node) := by
  simp only [sendHeartbeat, heartbeatFor, MinUint64_eq_min]

/-- The loop of `broadcastHeartbeatWithCtx` from position `i` on sends the
heartbeats of the peers from position `i` on, in order. -/
theorem broadcastHeartbeatLoop_eq (context : List Nat) (k : Nat) :
    ∀ (i : Nat) (c : Core), c.nodes.length ≤ i + k →
      broadcastHeartbeatLoop context k i c =
        { c with callback := { c.callback with
            sent := c.callback.sent ++ (c.nodes.drop i).map (heartbeatFor c context) } } := by
  induction k with
  | zero =>
    intro i c h
    have hd : c.nodes.drop i = [] := List.drop_eq_nil_of_le (by omega)
    simp [broadcastHeartbeatLoop, hd]
  | succ k ih =>
    intro i c h
    cases hn : c.nodes[i]? with
    | none =>
      have hlen : c.nodes.length ≤ i := List.getElem?_eq_none_iff.mp hn
      have hd : c.nodes.drop i = [] := List.drop_eq_nil_of_le hlen
      simp [broadcastHeartbeatLoop, hn, hd]
    | some node =>
      have hlt : i < c.nodes.length := by
        by_contra hge
        rw [List.getElem?_eq_none (by omega)] at hn
        exact absurd hn (by simp)
      have hnode : c.nodes[i] = node := by
        rw [List.getElem?_eq_getElem hlt] at hn
        exact Option.some.inj hn
      have hd : c.nodes.drop i = node :: c.nodes.drop (i + 1) := by
        rw [List.drop_eq_getElem_cons hlt, hnode]
      have hf : heartbeatFor (c.send (heartbeatFor c context node)) context =
          heartbeatFor c context := rfl
      simp only [broadcastHeartbeatLoop, hn]
      rw [sendHeartbeat_eq, ih (i + 1) (c.send (heartbeatFor c context node))
        (by show c.nodes.length ≤ i + 1 + k; omega), hd, hf]
      simp [Core.send]

/-- The method `broadcastHeartbeatWithCtx` sends the heartbeat of every peer,
in peer order, and changes nothing else. -/
theorem broadcastHeartbeatWithCtx_eq (c : Core) (context : List Nat) :
    broadcastHeartbeatWithCtx c context =
      { c with callback := { c.callback with
          sent := c.callback.sent ++ c.nodes.map (heartbeatFor c context) } } := by
  unfold broadcastHeartbeatWithCtx
  rw [broadcastHeartbeatLoop_eq context c.nodes.length 0 c (by omega), List.drop_zero]

/-- C13: `broadcastHeartbeatWithCtx` sends exactly one `HeartbeatRequest` to
every peer, in peer order; it consults no pause state: every peer is sent one,
paused or not.  The message to the peer `p` has `To = p.ID`,
`Index = min(p.Matched, commitIndex)` and the context given; hence the index
of a heartbeat exceeds neither the index the peer has matched nor the commit
index of the leader. -/
theorem broadcastHeartbeat_sends (c : Core) (context : List Nat) :
    broadcastHeartbeatWithCtx c context =
      { c with callback := { c.callback with
          sent := c.callback.sent ++ c.nodes.map (heartbeatFor c context) } } ∧
    (broadcastHeartbeatWithCtx c context).callback.sent =
      c.callback.sent ++ c.nodes.map (heartbeatFor c context) ∧
    (c.nodes.map (heartbeatFor c context)).length = c.nodes.length ∧
    ∀ p : Node,
      (heartbeatFor c context p).MsgType = MessageType.MsgHeartbeatRequest ∧
      (heartbeatFor c context p).To = p.ID ∧
      (heartbeatFor c context p).Index = min p.Matched c.log.CommitIndex ∧
      (heartbeatFor c context p).Context = context ∧
      (heartbeatFor c context p).Index ≤ p.Matched ∧
      (heartbeatFor c context p).Index ≤ c.log.CommitIndex := by
  have e := broadcastHeartbeatWithCtx_eq c context
  refine ⟨e, by rw [e], List.length_map _ _, fun p => ⟨rfl, rfl, rfl, rfl, ?_, ?_⟩⟩
  · exact min_le_left _ _
  · exact min_le_right _ _

/-- An instance of C13: the leader `exLeader` (commit index 2), with node 2
paused in the snapshot state (matched 3) and node 3 at matched index 1, sends
node 2 a heartbeat with index 2 and node 3 a heartbeat with index 1. -/
theorem broadcastHeartbeat_example :
    (broadcastHeartbeatWithCtx
      { exLeader with nodes := [{ exNode 2 with Matched := 3, NextIdx := 4, paused := true,
                                                state := ProgressState.Snapshot },
                                { exNode 3 with Matched := 1, NextIdx := 2 }] }
      [9]).callback.sent.map (fun m => (m.MsgType, m.To, m.Index, m.Context)) =
      [(MessageType.MsgHeartbeatRequest, 2, 2, [9]),
       (MessageType.MsgHeartbeatRequest, 3, 1, [9])] := by
  decide

/-- The quorum is 1 exactly in the cluster of one node. -/
theorem quorum_le_one_iff (c : Core) : c.quorum ≤ 1 ↔ c.nodes = [] := by
  unfold Core.quorum
  constructor
  · intro h
    have : c.nodes.length = 0 := by omega
    exact List.length_eq_zero.mp this
  · intro h
    rw [h]
    decide

/-- C17: at a leader, `handleReadIndexRequest` drops the request when
`log.Term(commitIndex) != term`: the state, with the read-only tracker, the
messages sent and the read states delivered, is unchanged.  Otherwise it
records `(commitIndex, msg.From, msg.Context)` in the read-only tracker and
then, if the quorum is above 1, sends one heartbeat carrying `msg.Context` to
every peer; else (the cluster is the leader alone) it calls
`advanceReadOnly(msg.Context)` at once and sends no heartbeat. -/
theorem handleReadIndexRequest_cases (d : Deps) (c : Core) (msg : Message)
    (hl : c.state = Role.RoleLeader) :
    (d.Term c.log c.log.CommitIndex ≠ c.term → handleReadIndexRequest d c msg = some c) ∧
    (d.Term c.log c.log.CommitIndex = c.term →
      (c.quorum > 1 →
        handleReadIndexRequest d c msg =
          some { c with
            readOnly := d.AddRequest c.readOnly c.log.CommitIndex msg.From msg.Context,
            callback := { c.callback with
              sent := c.callback.sent ++ c.nodes.map (heartbeatFor c msg.Context) } }) ∧
      (c.quorum ≤ 1 →
        c.nodes = [] ∧
        handleReadIndexRequest d c msg =
          d.advanceReadOnly
            { c with
              readOnly := d.AddRequest c.readOnly c.log.CommitIndex msg.From msg.Context }
            msg.Context)) := by
  have hlead : ¬ (c.state.IsLeader = false) := by simp [Role.IsLeader, hl]
  refine ⟨fun ht => ?_, fun ht => ⟨fun hq => ?_, fun hq => ⟨(quorum_le_one_iff c).mp hq, ?_⟩⟩⟩
  · simp only [handleReadIndexRequest, if_neg hlead, if_pos ht]
  · have hq2 : (Core.quorum { c with
        readOnly := d.AddRequest c.readOnly c.log.CommitIndex msg.From msg.Context }) > 1 := hq
    simp only [handleReadIndexRequest, if_neg hlead, if_neg (not_not.mpr ht), if_pos hq2,
      broadcastHeartbeatWithCtx_eq]
    rfl
  · have hq2 : ¬ ((Core.quorum { c with
        readOnly := d.AddRequest c.readOnly c.log.CommitIndex msg.From msg.Context }) > 1) := by
      show ¬ (c.quorum > 1)
      omega
    simp only [handleReadIndexRequest, if_neg hlead, if_neg (not_not.mpr ht), if_neg hq2]

/-- Witness of C17: the leader `exLeader` has committed index 2 of its own term
1; the read-index request of node 2 with context `[9]` is recorded and a
heartbeat with that context goes to the nodes 2 and 3. -/
theorem handleReadIndexRequest_cases_witness :
    handleReadIndexRequest specDeps exLeader
        { exMsg MessageType.MsgReadIndexRequest 2 1 with Context := [9] } =
      some { exLeader with
        readOnly := specDeps.AddRequest exLeader.readOnly exLeader.log.CommitIndex 2 [9],
        callback := { exLeader.callback with
          sent := exLeader.callback.sent ++ exLeader.nodes.map (heartbeatFor exLeader [9]) } } :=
  ((handleReadIndexRequest_cases specDeps exLeader
    { exMsg MessageType.MsgReadIndexRequest 2 1 with Context := [9] } rfl).2 (by decide)).1
    (by decide)

/-- The cases of C17 on concrete states: a leader at term 2 whose committed
entry is of term 1 drops the request; the leader `exLeader` records it and
sends two heartbeats; the leader that is alone delivers the read state at once
and sends nothing. -/
theorem handleReadIndexRequest_examples :
    handleReadIndexRequest specDeps { exLeader with term := 2 }
        { exMsg MessageType.MsgReadIndexRequest 2 2 with Context := [9] } =
      some { exLeader with term := 2 } ∧
    (handleReadIndexRequest specDeps exLeader
        { exMsg MessageType.MsgReadIndexRequest 2 1 with Context := [9] }).map
        (fun c => (c.readOnly.requests.map (fun q => (q.index, q.requester, q.context)),
          c.callback.sent.map (fun m => (m.MsgType, m.To, m.Context)))) =
      some ([(2, 2, [9])], [(MessageType.MsgHeartbeatRequest, 2, [9]),
        (MessageType.MsgHeartbeatRequest, 3, [9])]) ∧
    (handleReadIndexRequest specDeps exSingle
        { exMsg MessageType.MsgReadIndexRequest 1 1 with Context := [9] }).map
        (fun c => (c.callback.sent, c.callback.readStates)) =
      some ([], [{ Index := 2, RequestCtx := [9] }]) := by
  decide

/-- The control flow of `handleHeartbeatResponse`: the acknowledgement is
recorded with `readOnly.ReceiveAck(msg.From, msg.Context)`, and
`advanceReadOnly(msg.Context)` is called if and only if the count that
`ReceiveAck` returns, as it is, reaches the quorum; below the quorum only the
tracker is updated.  The handler adds nothing to the count. -/
theorem handleHeartbeatResponse_ack (d : Deps) (c : Core) (msg : Message) :
    ((d.ReceiveAck c.readOnly msg.From msg.Context).2 ≥ c.quorum →
      handleHeartbeatResponse d c msg =
        d.advanceReadOnly
          { c with readOnly := (d.ReceiveAck c.readOnly msg.From msg.Context).1 }
          msg.Context) ∧
    ((d.ReceiveAck c.readOnly msg.From msg.Context).2 < c.quorum →
      handleHeartbeatResponse d c msg =
        some { c with readOnly := (d.ReceiveAck c.readOnly msg.From msg.Context).1 }) := by
  refine ⟨fun h => ?_, fun h => ?_⟩
  · have hn : ¬ ((d.ReceiveAck c.readOnly msg.From msg.Context).2 <
        Core.quorum { c with readOnly := (d.ReceiveAck c.readOnly msg.From msg.Context).1 }) := by
      show ¬ (_ < c.quorum)
      omega
    simp only [handleHeartbeatResponse, if_neg hn]
  · have hp : (d.ReceiveAck c.readOnly msg.From msg.Context).2 <
        Core.quorum { c with readOnly := (d.ReceiveAck c.readOnly msg.From msg.Context).1 } := h
    simp only [handleHeartbeatResponse, if_pos hp]

/-- The handler in the cluster of five (quorum 3), with the read-only tracker
as the specification describes it: the first acknowledgement of a request is
recorded and nothing advances; the acknowledgement of a third peer releases the
request, and the requester, node 2, is sent the read index. -/
theorem handleHeartbeatResponse_examples :
    (handleHeartbeatResponse specDeps
      { exLeader with nodes := [exNode 2, exNode 3, exNode 4, exNode 5],
                      readOnly := { requests :=
                        [{ index := 2, requester := 2, context := [9], acks := [] }] } }
      { exMsg MessageType.MsgHeartbeatResponse 3 1 with Context := [9] }).map
        (fun c => (c.readOnly.requests.map (fun q => q.acks), c.callback.sent.length)) =
      some ([[3]], 0) ∧
    (handleHeartbeatResponse specDeps
      { exLeader with nodes := [exNode 2, exNode 3, exNode 4, exNode 5],
                      readOnly := { requests :=
                        [{ index := 2, requester := 2, context := [9], acks := [3, 4] }] } }
      { exMsg MessageType.MsgHeartbeatResponse 5 1 with Context := [9] }).map
        (fun c => (c.readOnly.requests.length,
          c.callback.sent.map (fun m => (m.MsgType, m.To, m.Index, m.Context)))) =
      some (0, [(MessageType.MsgReadIndexResponse, 2, 2, [9])]) :=
  ⟨rfl, rfl⟩

/-- C18, on the code: with `ReceiveAck` returning the size of the acks set,
which holds the responding peers only, `handleHeartbeatResponse` does not count
the leader.  Node 1 leads the cluster of nodes 1, 2, 3 (quorum 2) and has one
read-index request outstanding, context `[9]`.  Node 2 acknowledges: the acks
set is `[2]`, which with the leader makes the quorum, yet the handler compares
the count 1 with the quorum 2 and returns; the request stays pending and
nothing is sent, where `advanceReadOnly` would have released it and sent
node 2 the read index.  Only the acknowledgement of node 3, the last peer,
releases the request.  The sibling `handleVoteResponse` does add one for the
node itself: in the same cluster one granted vote makes the candidate leader. -/
theorem handleHeartbeatResponse_leader_not_counted :
    (exLeaderRead.state, exLeaderRead.nodes.map (fun n => n.ID), exLeaderRead.quorum) =
      (Role.RoleLeader, [2, 3], 2) ∧
    (specDeps.ReceiveAck exLeaderRead.readOnly 2 [9]).2 = 1 ∧
    (handleHeartbeatResponse specDeps exLeaderRead
      { exMsg MessageType.MsgHeartbeatResponse 2 1 with Context := [9] }).map
        (fun c => (c.readOnly.requests.map (fun q => (q.context, q.acks)),
          c.callback.sent, c.callback.readStates)) =
      some ([([9], [2])], [], []) ∧
    (specDeps.advanceReadOnly
      { exLeaderRead with readOnly := (specDeps.ReceiveAck exLeaderRead.readOnly 2 [9]).1 }
      [9]).map
        (fun c => (c.readOnly.requests.map (fun q => (q.context, q.acks)),
          c.callback.sent.map (fun m => (m.MsgType, m.To, m.Index, m.Context)))) =
      some ([], [(MessageType.MsgReadIndexResponse, 2, 2, [9])]) ∧
    ((handleHeartbeatResponse specDeps exLeaderRead
      { exMsg MessageType.MsgHeartbeatResponse 2 1 with Context := [9] }).bind
        (fun c => handleHeartbeatResponse specDeps c
          { exMsg MessageType.MsgHeartbeatResponse 3 1 with Context := [9] })).map
        (fun c => (c.readOnly.requests.map (fun q => (q.context, q.acks)),
          c.callback.sent.map (fun m => (m.MsgType, m.To, m.Index, m.Context)))) =
      some ([], [(MessageType.MsgReadIndexResponse, 2, 2, [9])]) ∧
    (handleVoteResponse specDeps { exCore with state := Role.RoleCandidate, vote := 1 }
      (exMsg MessageType.MsgVoteResponse 2 1)).map (fun c => c.state) =
        some Role.RoleLeader :=
  ⟨rfl, rfl, rfl, rfl, rfl, rfl⟩

/-! ## Replication: `broadcastAppend` and the size limit of `sendAppend` -/

/-- The entries that the size loop of `sendAppend` keeps are a prefix
`entries[:j]` with `j ≥ 1`. -/
theorem sliceBySize_take (maxSize : Nat) (es : List Entry) (k : Nat) :
    ∀ i size : Nat, 1 ≤ i → ∃ j, 1 ≤ j ∧ sliceBySize maxSize es k i size = es.take j := by
  have whole : ∃ j, 1 ≤ j ∧ es = es.take j :=
    ⟨max 1 es.length, le_max_left _ _, (List.take_of_length_le (le_max_right _ _)).symm⟩
  induction k with
  | zero =>
    intro i size _
    simpa only [sliceBySize] using whole
  | succ k ih =>
    intro i size hi
    cases he : es[i]? with
    | none => simpa only [sliceBySize, he] using whole
    | some e =>
      by_cases hs : size + (16 + e.Data.length) > maxSize
      · exact ⟨i, hi, by simp only [sliceBySize, he, if_pos hs]⟩
      · obtain ⟨j, hj, hjeq⟩ := ih (i + 1) (size + (16 + e.Data.length)) (by omega)
        exact ⟨j, hj, by simp only [sliceBySize, he, if_neg hs, hjeq]⟩

/-- A prefix of entries with consecutive indices has consecutive indices. -/
theorem sequences_take (es : List Entry) :
    ∀ j : Nat, sequences es = true → sequences (es.take j) = true := by
  induction es with
  | nil => intro j _; simp [sequences]
  | cons a rest ih =>
    intro j h
    cases j with
    | zero => simp [sequences]
    | succ j =>
      cases rest with
      | nil => simp [sequences]
      | cons b rest2 =>
        cases j with
        | zero => simp [sequences]
        | succ j =>
          simp only [sequences, Bool.and_eq_true, decide_eq_true_eq] at h
          have := ih (j + 1) h.2
          simp only [List.take_succ_cons] at this ⊢
          simp only [sequences, Bool.and_eq_true, decide_eq_true_eq]
          exact ⟨h.1, this⟩

/-- What a call of `sendAppend` that returns has done: one `AppendRequest` to
the peer is sent and the record of the peer is rewritten. -/
theorem sendAppend_some (d : Deps) (c : Core) (i : Nat) (node : Node) (c1 : Core)
    (h : sendAppend d c i node = some c1) :
    ∃ (m : Message) (n1 : Node),
      m.MsgType = MessageType.MsgAppendRequest ∧ m.To = node.ID ∧
      c1 = Core.send { c with nodes := c.nodes.set i n1 } m := by
  unfold sendAppend at h
  simp only at h
  split_ifs at h <;> exact ⟨_, _, rfl, rfl, (Option.some.inj h).symm⟩

/-- The method `sendAppend` returns for a peer that is not paused when the
slices of the log do not start at `InvalidIndex` and have consecutive indices. -/
theorem sendAppend_returns (d : Deps) (c : Core) (i : Nat) (node : Node)
    (hp : d.IsPaused node = false)
    (hseq : ∀ lo hi, sequences (d.Slice c.log lo hi) = true)
    (hidx : ∀ lo hi e, (d.Slice c.log lo hi).head? = some e → e.Index ≠ InvalidIndex) :
    ∃ c1, sendAppend d c i node = some c1 := by
  have key : ∀ es : List Entry, sequences es = true →
      (∀ e, es.head? = some e → e.Index ≠ InvalidIndex) →
      ∀ es2 : List Entry, (∃ j, 1 ≤ j ∧ es2 = es.take j) →
        sequences es2 = true ∧
        (es2.length = 0 ∨ (es2.head?.map (fun e => e.Index)) ≠ some InvalidIndex) := by
    intro es h1 h2 es2 ⟨j, hj, he⟩
    subst he
    refine ⟨sequences_take es j h1, ?_⟩
    cases es with
    | nil => exact Or.inl (by simp)
    | cons a rest =>
      refine Or.inr ?_
      obtain ⟨j2, rfl⟩ : ∃ j2, j = j2 + 1 := ⟨j - 1, by omega⟩
      simp only [List.take_succ_cons, List.head?_cons, Option.map_some']
      intro hh
      exact h2 a rfl (Option.some.inj hh)
  unfold sendAppend
  simp only
  by_cases hl : d.LastIndex c.log ≥ node.NextIdx
  · have hk := key _ (hseq node.NextIdx ((d.LastIndex c.log + 1) % u64))
      (hidx node.NextIdx ((d.LastIndex c.log + 1) % u64)) _
      (sliceBySize_take c.maxSizePerMsg
        (d.Slice c.log node.NextIdx ((d.LastIndex c.log + 1) % u64))
        (d.Slice c.log node.NextIdx ((d.LastIndex c.log + 1) % u64)).length 1 0 (le_refl 1))
    simp only [if_pos hl]
    rw [if_neg (fun hh => hh.2 hk.2), if_neg (by rw [hk.1]; simp), if_neg (by rw [hp]; simp)]
    exact ⟨_, rfl⟩
  · simp only [if_neg hl]
    rw [if_neg (fun hh => hl hh.1), if_neg (by simp [sequences]), if_neg (by rw [hp]; simp)]
    exact ⟨_, rfl⟩

/-- The method `sendSnapshot`, by what the host has at hand. -/
theorem sendSnapshot_cases (d : Deps) (c : Core) (i : Nat) (node : Node) :
    (c.callback.snapshot = none ∧ sendSnapshot d c i node = c) ∨
    (∃ s, c.callback.snapshot = some s ∧
      sendSnapshot d c i node =
        Core.send { c with nodes := c.nodes.set i (d.SendSnapshot node s.Metadata.Index) }
          { Message.mk0 MessageType.MsgSnapshotRequest node.ID with Snapshot := some s }) := by
  cases hs : c.callback.snapshot with
  | none => exact Or.inl ⟨rfl, by simp only [sendSnapshot, hs]⟩
  | some s => exact Or.inr ⟨s, rfl, by simp only [sendSnapshot, hs]⟩

/-- The loop of `broadcastAppend` from position `i` on, when it returns: the
messages sent are, peer by peer from position `i` on and in that order, what
`broadcastSends` allows for the peer. -/
theorem broadcastAppendLoop_sends (d : Deps) (f : Nat) (k : Nat) :
    ∀ (i : Nat) (c c2 : Core), c.nodes.length ≤ i + k →
      broadcastAppendLoop d f k i c = some c2 →
      ∃ news : List (List Message),
        c2.callback.sent = c.callback.sent ++ news.flatten ∧
        List.Forall₂ (broadcastSends d f c.callback.snapshot) (c.nodes.drop i) news := by
  induction k with
  | zero =>
    intro i c c2 h h2
    have hd : c.nodes.drop i = [] := List.drop_eq_nil_of_le (by omega)
    have e : c2 = c := by
      simp only [broadcastAppendLoop] at h2
      exact (Option.some.inj h2).symm
    subst e
    exact ⟨[], by simp, by rw [hd]; exact List.Forall₂.nil⟩
  | succ k ih =>
    intro i c c2 h h2
    cases hn : c.nodes[i]? with
    | none =>
      have hlen : c.nodes.length ≤ i := List.getElem?_eq_none_iff.mp hn
      have hd : c.nodes.drop i = [] := List.drop_eq_nil_of_le hlen
      have e : c2 = c := by
        simp only [broadcastAppendLoop, hn] at h2
        exact (Option.some.inj h2).symm
      subst e
      exact ⟨[], by simp, by rw [hd]; exact List.Forall₂.nil⟩
    | some node =>
      have hlt : i < c.nodes.length := by
        by_contra hge
        rw [List.getElem?_eq_none (by omega)] at hn
        exact absurd hn (by simp)
      have hnode : c.nodes[i] = node := by
        rw [List.getElem?_eq_getElem hlt] at hn
        exact Option.some.inj hn
      have hd : c.nodes.drop i = node :: c.nodes.drop (i + 1) := by
        rw [List.drop_eq_getElem_cons hlt, hnode]
      have sent1 : ∀ (n1 : Node) (m : Message),
          broadcastAppendLoop d f k (i + 1)
            (Core.send { c with nodes := c.nodes.set i n1 } m) = some c2 →
          ∃ news1 : List (List Message),
            c2.callback.sent = c.callback.sent ++ ([m] :: news1).flatten ∧
            List.Forall₂ (broadcastSends d f c.callback.snapshot) (c.nodes.drop (i + 1))
              news1 := by
        intro n1 m hloop
        obtain ⟨news1, hs, hf⟩ := ih (i + 1) _ c2
          (by show (c.nodes.set i n1).length ≤ i + 1 + k; rw [List.length_set]; omega) hloop
        refine ⟨news1, ?_, ?_⟩
        · rw [hs]
          simp [Core.send]
        · have hdrop : (c.nodes.set i n1).drop (i + 1) = c.nodes.drop (i + 1) :=
            List.drop_set_of_lt n1 c.nodes (Nat.lt_succ_self i)
          have hf2 : List.Forall₂ (broadcastSends d f c.callback.snapshot)
              ((c.nodes.set i n1).drop (i + 1)) news1 := hf
          rw [hdrop] at hf2
          exact hf2
      simp only [broadcastAppendLoop, hn] at h2
      rw [hd]
      by_cases hp : d.IsPaused node = true
      · rw [if_pos hp] at h2
        obtain ⟨news1, hs, hf⟩ := ih (i + 1) c c2 (by omega) h2
        refine ⟨[] :: news1, by rw [hs]; simp, List.Forall₂.cons ?_ hf⟩
        simp only [broadcastSends, if_pos hp]
      · rw [if_neg hp] at h2
        by_cases hx : node.NextIdx ≥ f
        · rw [if_pos hx] at h2
          obtain ⟨c1, hc1, hloop⟩ := Option.bind_eq_some.mp h2
          obtain ⟨m, n1, hm1, hm2, e⟩ := sendAppend_some d c i node c1 hc1
          subst e
          obtain ⟨news1, hs, hf⟩ := sent1 n1 m hloop
          refine ⟨[m] :: news1, hs, List.Forall₂.cons ?_ hf⟩
          simp only [broadcastSends, if_neg hp, if_pos hx]
          exact ⟨m, rfl, hm1, hm2⟩
        · rw [if_neg hx] at h2
          rcases sendSnapshot_cases d c i node with ⟨hnone, e⟩ | ⟨s, hsome, e⟩
          · rw [e] at h2
            obtain ⟨news1, hs, hf⟩ := ih (i + 1) c c2 (by omega) h2
            refine ⟨[] :: news1, by rw [hs]; simp, List.Forall₂.cons ?_ hf⟩
            simp only [broadcastSends, if_neg hp, if_neg hx, hnone]
          · rw [e] at h2
            obtain ⟨news1, hs, hf⟩ := sent1 _ _ h2
            refine ⟨_ :: news1, hs, List.Forall₂.cons ?_ hf⟩
            simp only [broadcastSends, if_neg hp, if_neg hx, hsome]

/-- The loop of `broadcastAppend` returns when the slices of the log do not
start at `InvalidIndex` and have consecutive indices. -/
theorem broadcastAppendLoop_returns (d : Deps) (f : Nat) (l : RaftLog)
    (hseq : ∀ lo hi, sequences (d.Slice l lo hi) = true)
    (hidx : ∀ lo hi e, (d.Slice l lo hi).head? = some e → e.Index ≠ InvalidIndex) (k : Nat) :
    ∀ (i : Nat) (c : Core), c.log = l → ∃ c2, broadcastAppendLoop d f k i c = some c2 := by
  induction k with
  | zero => intro i c _; exact ⟨c, rfl⟩
  | succ k ih =>
    intro i c hl
    cases hn : c.nodes[i]? with
    | none => exact ⟨c, by simp only [broadcastAppendLoop, hn]⟩
    | some node =>
      simp only [broadcastAppendLoop, hn]
      by_cases hp : d.IsPaused node = true
      · rw [if_pos hp]
        exact ih (i + 1) c hl
      · rw [if_neg hp]
        by_cases hx : node.NextIdx ≥ f
        · rw [if_pos hx]
          obtain ⟨c1, hc1⟩ := sendAppend_returns d c i node (by simpa using hp)
            (by rw [hl]; exact hseq) (by rw [hl]; exact hidx)
          obtain ⟨m, n1, _, _, e⟩ := sendAppend_some d c i node c1 hc1
          rw [hc1]
          exact ih (i + 1) c1 (by rw [e]; exact hl)
        · rw [if_neg hx]
          rcases sendSnapshot_cases d c i node with ⟨_, e⟩ | ⟨s, _, e⟩
          · rw [e]; exact ih (i + 1) c hl
          · rw [e]; exact ih (i + 1) _ hl

/-- C19: `broadcastAppend` on the cluster of one node (quorum at most 1) sends
nothing itself and calls `poll(lastIndex)`.  Otherwise it goes through the
peers in order and, when it returns, has sent for each peer what
`broadcastSends` says: nothing to a peer whose `IsPaused()` is true, one
`AppendRequest` to a peer that is not paused and has `NextIdx >= firstIndex`,
and for a peer that is not paused and has `NextIdx < firstIndex` the snapshot
of the host if there is one; no message goes to a paused peer.  It returns
when the slices of the log do not start at `InvalidIndex` and have consecutive
indices, which is what `sendAppend` asserts. -/
theorem broadcastAppend_sends (d : Deps) (c : Core) :
    (c.quorum ≤ 1 → c.nodes = [] ∧ broadcastAppend d c = d.poll c (d.LastIndex c.log)) ∧
    (c.quorum > 1 →
      (∀ c2, broadcastAppend d c = some c2 →
        ∃ news : List (List Message),
          c2.callback.sent = c.callback.sent ++ news.flatten ∧
          List.Forall₂ (broadcastSends d (d.FirstIndex c.log) c.callback.snapshot)
            c.nodes news) ∧
      ((∀ lo hi, sequences (d.Slice c.log lo hi) = true) →
        (∀ lo hi e, (d.Slice c.log lo hi).head? = some e → e.Index ≠ InvalidIndex) →
        ∃ c2, broadcastAppend d c = some c2)) := by
  refine ⟨fun hq => ⟨(quorum_le_one_iff c).mp hq, ?_⟩, fun hq => ⟨fun c2 h2 => ?_,
    fun hseq hidx => ?_⟩⟩
  · simp only [broadcastAppend, if_pos hq]
  · simp only [broadcastAppend, if_neg (by omega : ¬ c.quorum ≤ 1)] at h2
    have := broadcastAppendLoop_sends d (d.FirstIndex c.log) c.nodes.length 0 c c2 (by omega) h2
    simpa only [List.drop_zero] using this
  · simp only [broadcastAppend, if_neg (by omega : ¬ c.quorum ≤ 1)]
    exact broadcastAppendLoop_returns d (d.FirstIndex c.log) c.log hseq hidx c.nodes.length 0 c
      rfl

/-- Witness of C19: the leader `exLeader` of the cluster of three (quorum 2)
with the transitions as the specification describes them. -/
theorem broadcastAppend_sends_witness :
    ∀ c2, broadcastAppend specDeps exLeader = some c2 →
      ∃ news : List (List Message),
        c2.callback.sent = exLeader.callback.sent ++ news.flatten ∧
        List.Forall₂ (broadcastSends specDeps (specDeps.FirstIndex exLeader.log)
          exLeader.callback.snapshot) exLeader.nodes news :=
  ((broadcastAppend_sends specDeps exLeader).2 (by decide)).1

/-- The cases of C19 on concrete leaders, with the peer record and the log as
the specification describes them.  The leader `exLeader` sends an append to
node 2 (nothing new, after index 3) and to node 3 (entries 2 and 3).  A leader
whose log starts at index 6 after a snapshot sends node 2 (next index 2) the
snapshot of the host, nothing to the paused node 3, and an append to node 4;
when the host has no snapshot at hand node 2 is sent nothing.  The leader that
is alone sends nothing and commits its log through `poll`. -/
theorem broadcastAppend_examples :
    (broadcastAppend specDeps exLeader).map
        (fun c => c.callback.sent.map (fun m => (m.MsgType, m.To, m.Entries.length))) =
      some [(MessageType.MsgAppendRequest, 2, 0), (MessageType.MsgAppendRequest, 3, 2)] ∧
    (broadcastAppend specDeps
      { exLeader with
        log := { entries := [{ Index := 6, Term := 1, Data := [] }], committed := 5,
                 applied := 5, snapshot := { Index := 5, Term := 1 } },
        nodes := [{ exNode 2 with NextIdx := 2, state := ProgressState.Replicate },
                  { exNode 3 with NextIdx := 6, paused := true },
                  { exNode 4 with NextIdx := 6 }],
        callback := { exLeader.callback with snapshot := some exSnapshot } }).map
        (fun c => c.callback.sent.map (fun m => (m.MsgType, m.To, m.Snapshot))) =
      some [(MessageType.MsgSnapshotRequest, 2, some exSnapshot),
        (MessageType.MsgAppendRequest, 4, none)] ∧
    (broadcastAppend specDeps
      { exLeader with
        log := { entries := [{ Index := 6, Term := 1, Data := [] }], committed := 5,
                 applied := 5, snapshot := { Index := 5, Term := 1 } },
        nodes := [{ exNode 2 with NextIdx := 2, state := ProgressState.Replicate },
                  { exNode 3 with NextIdx := 6, paused := true },
                  { exNode 4 with NextIdx := 6 }] }).map
        (fun c => c.callback.sent.map (fun m => (m.MsgType, m.To, m.Snapshot))) =
      some [(MessageType.MsgAppendRequest, 4, none)] ∧
    (broadcastAppend specDeps exSingle).map
        (fun c => (c.callback.sent, c.log.CommitIndex)) = some ([], 3) :=
  ⟨rfl, rfl, rfl, rfl⟩

/-- The running sum of the size loop of `sendAppend` leaves out the first
entry: what the loop keeps has, after its first entry, a measured size of at
most `maxSize`. -/
theorem sliceBySize_tail_le (maxSize : Nat) (es : List Entry) (k : Nat) :
    ∀ i size : Nat, 1 ≤ i → es.length ≤ i + k →
      size = entriesSize ((es.take i).drop 1) → size ≤ maxSize →
      entriesSize ((sliceBySize maxSize es k i size).drop 1) ≤ maxSize := by
  induction k with
  | zero =>
    intro i size _ hlen hsize hle
    simp only [sliceBySize]
    rw [List.take_of_length_le (by omega)] at hsize
    omega
  | succ k ih =>
    intro i size hi hlen hsize hle
    cases he : es[i]? with
    | none =>
      have hl : es.length ≤ i := List.getElem?_eq_none_iff.mp he
      simp only [sliceBySize, he]
      rw [List.take_of_length_le hl] at hsize
      omega
    | some e =>
      by_cases hs : size + (16 + e.Data.length) > maxSize
      · simp only [sliceBySize, he, if_pos hs]
        omega
      · simp only [sliceBySize, he, if_neg hs]
        apply ih (i + 1) _ (by omega) (by omega) _ (by omega)
        have hlt : i < es.length := by
          by_contra hge
          rw [List.getElem?_eq_none (by omega)] at he
          exact absurd he (by simp)
        have hget : es[i] = e := by
          rw [List.getElem?_eq_getElem hlt] at he
          exact Option.some.inj he
        have htake : es.take (i + 1) = es.take i ++ [e] := by
          rw [List.take_succ, he]
          rfl
        have hdrop : (es.take i ++ [e]).drop 1 = (es.take i).drop 1 ++ [e] := by
          apply List.drop_append_of_le_length
          rw [List.length_take]
          omega
        rw [htake, hdrop, hsize]
        simp [entriesSize, entrySize]

/-- C20, on the code: with `maxSizePerMsg = 20` and a log of two entries of
measured sizes 26 and 16, the `AppendRequest` that `sendAppend` builds carries
both entries, of total measured size 42; the running sum of the loop starts at
the second entry and the first entry is never measured. -/
theorem sendAppend_size_exceeds :
    exLeaderBig.maxSizePerMsg = 20 ∧
    (sendAppend specDeps exLeaderBig 0 { exNode 2 with state := ProgressState.Replicate }).map
        (fun c => c.callback.sent.map
          (fun m => (m.To, m.Entries.length, m.Entries.map entrySize, entriesSize m.Entries))) =
      some [(2, 2, [26, 16], 42)] :=
  ⟨rfl, rfl⟩

/-- What the size limit of `sendAppend` does bound: the entries carried are a
non-empty prefix cut of the slice of the log, and the entries carried after
the first have a total measured size of at most `maxSizePerMsg`. -/
theorem sendAppend_size_tail (maxSize : Nat) (es : List Entry) :
    (∃ j, 1 ≤ j ∧ sliceBySize maxSize es es.length 1 0 = es.take j) ∧
    entriesSize ((sliceBySize maxSize es es.length 1 0).drop 1) ≤ maxSize := by
  refine ⟨sliceBySize_take maxSize es es.length 1 0 (le_refl 1), ?_⟩
  apply sliceBySize_tail_le maxSize es es.length 1 0 (le_refl 1) (by omega) _ (Nat.zero_le _)
  cases es with
  | nil => rfl
  | cons a rest => simp [entriesSize]

/-! ## Snapshots and appends to a peer -/

/-- C21: when the host's `readSnapshot` returns nil, `sendSnapshot` sends no
message and changes nothing: the progress record of the peer (state, paused,
pending snapshot index, next, matched) and the whole state are as before.
When it returns a snapshot, the record of the peer becomes
`SendSnapshot(snapshot.Metadata.Index)` of itself, the other peers keep
theirs, and exactly one `SnapshotRequest` carrying that snapshot is sent to
the peer. -/
theorem sendSnapshot_outcome (d : Deps) (c : Core) (i : Nat) (node : Node)
    (hnode : c.nodes[i]? = some node) :
    (c.callback.snapshot = none →
      sendSnapshot d c i node = c ∧
      (sendSnapshot d c i node).nodes[i]? = some node ∧
      (sendSnapshot d c i node).callback.sent = c.callback.sent) ∧
    (∀ s, c.callback.snapshot = some s →
      sendSnapshot d c i node =
        Core.send { c with nodes := c.nodes.set i (d.SendSnapshot node s.Metadata.Index) }
          { Message.mk0 MessageType.MsgSnapshotRequest node.ID with Snapshot := some s } ∧
      (sendSnapshot d c i node).nodes[i]? = some (d.SendSnapshot node s.Metadata.Index) ∧
      (∀ j, j ≠ i → (sendSnapshot d c i node).nodes[j]? = c.nodes[j]?) ∧
      ∃ m : Message,
        (sendSnapshot d c i node).callback.sent = c.callback.sent ++ [m] ∧
        m.MsgType = MessageType.MsgSnapshotRequest ∧ m.To = node.ID ∧
        m.Snapshot = some s) := by
  have hlt : i < c.nodes.length := by
    by_contra hge
    rw [List.getElem?_eq_none (by omega)] at hnode
    exact absurd hnode (by simp)
  refine ⟨fun hn => ?_, fun s hs => ?_⟩
  · rcases sendSnapshot_cases d c i node with ⟨_, e⟩ | ⟨s, hs, _⟩
    · rw [e]; exact ⟨rfl, hnode, rfl⟩
    · rw [hn] at hs; exact absurd hs (by simp)
  · rcases sendSnapshot_cases d c i node with ⟨hn, _⟩ | ⟨s2, hs2, e⟩
    · rw [hs] at hn; exact absurd hn (by simp)
    · have es : s2 = s := by
        rw [hs] at hs2
        exact (Option.some.inj hs2).symm
      subst es
      rw [e]
      refine ⟨rfl, ?_, fun j hj => ?_, _, rfl, rfl, rfl, rfl⟩
      · show (c.nodes.set i (d.SendSnapshot node s2.Metadata.Index))[i]? = _
        rw [List.getElem?_set_self hlt]
      · show (c.nodes.set i (d.SendSnapshot node s2.Metadata.Index))[j]? = _
        rw [List.getElem?_set_ne (Ne.symm hj)]

/-- Witness of C21: node 2, first peer of the leader `exLeader`: the host has
no snapshot at hand and nothing changes; the host has the snapshot up to index
5, node 2 moves to the snapshot state with pending index 5 and is sent the
snapshot. -/
theorem sendSnapshot_outcome_witness :
    sendSnapshot specDeps exLeader 0
        { exNode 2 with Matched := 3, NextIdx := 4, state := ProgressState.Replicate } =
      exLeader ∧
    (∃ m : Message,
      (sendSnapshot specDeps
        { exLeader with callback := { exLeader.callback with snapshot := some exSnapshot } } 0
        { exNode 2 with Matched := 3, NextIdx := 4, state := ProgressState.Replicate }
        ).callback.sent = exLeader.callback.sent ++ [m] ∧
      m.MsgType = MessageType.MsgSnapshotRequest ∧ m.To = 2 ∧ m.Snapshot = some exSnapshot) :=
  ⟨((sendSnapshot_outcome specDeps exLeader 0
      { exNode 2 with Matched := 3, NextIdx := 4, state := ProgressState.Replicate } rfl).1
      rfl).1,
    ((sendSnapshot_outcome specDeps
      { exLeader with callback := { exLeader.callback with snapshot := some exSnapshot } } 0
      { exNode 2 with Matched := 3, NextIdx := 4, state := ProgressState.Replicate } rfl).2
      exSnapshot rfl).2.2.2⟩

/-- The peer of the witness of C21 after the snapshot is sent, with the peer
record as the specification describes it. -/
theorem sendSnapshot_example :
    (sendSnapshot specDeps
      { exLeader with callback := { exLeader.callback with snapshot := some exSnapshot } } 0
      { exNode 2 with Matched := 3, NextIdx := 4, state := ProgressState.Replicate }
      ).nodes.map (fun n => (n.ID, n.state, n.paused, n.pendingSnapshotIndex, n.NextIdx,
        n.Matched)) =
      [(2, ProgressState.Snapshot, true, 5, 4, 3), (3, ProgressState.Replicate, false, 0, 2, 1)] :=
  rfl

/-- The message that a call of `sendAppend` that returns has built and sent. -/
theorem sendAppend_built (d : Deps) (c : Core) (i : Nat) (node : Node) (c1 : Core)
    (h : sendAppend d c i node = some c1) :
    ∃ m : Message,
      c1 = Core.send { c with nodes := c.nodes.set i (d.SendEntries node m.Entries) } m ∧
      m.MsgType = MessageType.MsgAppendRequest ∧ m.To = node.ID ∧
      m.LogIndex = (node.NextIdx + u64 - 1) % u64 ∧
      m.LogTerm = d.Term c.log ((node.NextIdx + u64 - 1) % u64) ∧
      m.Index = c.log.CommitIndex ∧
      (d.LastIndex c.log ≥ node.NextIdx →
        m.Entries = sliceBySize c.maxSizePerMsg
          (d.Slice c.log node.NextIdx ((d.LastIndex c.log + 1) % u64))
          (d.Slice c.log node.NextIdx ((d.LastIndex c.log + 1) % u64)).length 1 0) ∧
      (d.LastIndex c.log < node.NextIdx → m.Entries = []) := by
  unfold sendAppend at h
  simp only at h
  by_cases hl : d.LastIndex c.log ≥ node.NextIdx
  · simp only [if_pos hl] at h
    split_ifs at h
    refine ⟨{ Message.mk0 MessageType.MsgAppendRequest node.ID with
        Index := c.log.CommitIndex,
        LogIndex := (node.NextIdx + u64 - 1) % u64,
        LogTerm := d.Term c.log ((node.NextIdx + u64 - 1) % u64),
        Entries := sliceBySize c.maxSizePerMsg
          (d.Slice c.log node.NextIdx ((d.LastIndex c.log + 1) % u64))
          (d.Slice c.log node.NextIdx ((d.LastIndex c.log + 1) % u64)).length 1 0 },
      (Option.some.inj h).symm, rfl, rfl, rfl, rfl, rfl, fun _ => rfl,
      fun hh => absurd hl (by omega)⟩
  · simp only [if_neg hl] at h
    split_ifs at h
    refine ⟨{ Message.mk0 MessageType.MsgAppendRequest node.ID with
        Index := c.log.CommitIndex,
        LogIndex := (node.NextIdx + u64 - 1) % u64,
        LogTerm := d.Term c.log ((node.NextIdx + u64 - 1) % u64),
        Entries := [] },
      (Option.some.inj h).symm, rfl, rfl, rfl, rfl, rfl, fun hh => absurd hh hl,
      fun _ => rfl⟩

/-- C22: for a peer with `NextIdx >= firstIndex` (indices are `uint64` values
and the first index is at least 1), the `AppendRequest` that `sendAppend`
builds has `LogIndex = NextIdx - 1`, `LogTerm = log.Term(NextIdx - 1)`,
`Index = commitIndex`.  When `lastIndex >= NextIdx` its entries are a prefix
`[:j]` with `j ≥ 1` of `log.Slice(NextIdx, lastIndex + 1)`, so they are not
empty when the slice is not, whatever `maxSizePerMsg` is; when
`lastIndex < NextIdx` it carries no entries.  For a peer that is not paused
`sendAppend` returns when the slices of the log do not start at
`InvalidIndex` and have consecutive indices, which is what it asserts. -/
theorem sendAppend_request (d : Deps) (c : Core) (i : Nat) (node : Node)
    (hfirst : 1 ≤ d.FirstIndex c.log) (hnext : d.FirstIndex c.log ≤ node.NextIdx)
    (hu : node.NextIdx < u64) (hlast : d.LastIndex c.log + 1 < u64) :
    (∀ c1, sendAppend d c i node = some c1 →
      ∃ m : Message,
        c1 = Core.send { c with nodes := c.nodes.set i (d.SendEntries node m.Entries) } m ∧
        m.MsgType = MessageType.MsgAppendRequest ∧ m.To = node.ID ∧
        m.LogIndex = node.NextIdx - 1 ∧
        m.LogTerm = d.Term c.log (node.NextIdx - 1) ∧
        m.Index = c.log.CommitIndex ∧
        (d.LastIndex c.log ≥ node.NextIdx →
          (∃ j, 1 ≤ j ∧
            m.Entries = (d.Slice c.log node.NextIdx (d.LastIndex c.log + 1)).take j) ∧
          (d.Slice c.log node.NextIdx (d.LastIndex c.log + 1) ≠ [] → m.Entries ≠ [])) ∧
        (d.LastIndex c.log < node.NextIdx → m.Entries = [])) ∧
    (d.IsPaused node = false →
      (∀ lo hi, sequences (d.Slice c.log lo hi) = true) →
      (∀ lo hi e, (d.Slice c.log lo hi).head? = some e → e.Index ≠ InvalidIndex) →
      ∃ c1, sendAppend d c i node = some c1) := by
  have e1 : (node.NextIdx + u64 - 1) % u64 = node.NextIdx - 1 := by
    have h1 : node.NextIdx + u64 - 1 = (node.NextIdx - 1) + u64 := by omega
    rw [h1, Nat.add_mod_right, Nat.mod_eq_of_lt (by omega)]
  have e2 : (d.LastIndex c.log + 1) % u64 = d.LastIndex c.log + 1 := Nat.mod_eq_of_lt hlast
  refine ⟨fun c1 h1 => ?_, fun hp hseq hidx => sendAppend_returns d c i node hp hseq hidx⟩
  obtain ⟨m, hc1, ht, hto, hli, hlt, hidx, hent, hemp⟩ := sendAppend_built d c i node c1 h1
  rw [e1] at hli hlt
  rw [e2] at hent
  refine ⟨m, hc1, ht, hto, hli, hlt, hidx, fun hl => ?_, hemp⟩
  obtain ⟨j, hj, hjeq⟩ := sliceBySize_take c.maxSizePerMsg
    (d.Slice c.log node.NextIdx (d.LastIndex c.log + 1))
    (d.Slice c.log node.NextIdx (d.LastIndex c.log + 1)).length 1 0 (le_refl 1)
  have hme : m.Entries = (d.Slice c.log node.NextIdx (d.LastIndex c.log + 1)).take j := by
    rw [hent hl, hjeq]
  refine ⟨⟨j, hj, hme⟩, fun hne => ?_⟩
  rw [hme]
  intro htake
  rcases List.take_eq_nil_iff.mp htake with h0 | h0
  · omega
  · exact hne h0

/-- Witness of C22: node 3, second peer of the leader `exLeader`, is to be
sent the log from index 2 on. -/
theorem sendAppend_request_witness :
    ∃ c1, sendAppend specDeps exLeader 1
      { exNode 3 with Matched := 1, NextIdx := 2, state := ProgressState.Replicate } = some c1 :=
  (sendAppend_request specDeps exLeader 1
    { exNode 3 with Matched := 1, NextIdx := 2, state := ProgressState.Replicate }
    (by decide) (by decide) (by decide) (by decide)).2 rfl
    (by
      intro lo hi
      show sequences (exLog3.entries.filter
        (fun e => decide (lo ≤ e.Index) && decide (e.Index < hi))) = true
      simp only [exLog3, List.filter]
      split <;> split <;> split <;> simp_all [sequences, u64]
      omega)
    (by
      intro lo hi e he
      have hm : e ∈ exLog3.entries.filter
          (fun e => decide (lo ≤ e.Index) && decide (e.Index < hi)) :=
        List.mem_of_mem_head? he
      have hm2 : e ∈ exLog3.entries := (List.mem_filter.mp hm).1
      simp only [exLog3, List.mem_cons, List.mem_singleton, List.not_mem_nil, or_false] at hm2
      rcases hm2 with rfl | rfl | rfl <;> decide)

/-- Instances of C22 with the log `exLog3` (entries 1 to 3), commit index 2:
node 3 with next index 2 is sent entries 2 and 3 after index 1 of term 1; with
`maxSizePerMsg = 0` it is still sent entry 2; node 2 with next index 4 is
sent no entries after index 3. -/
theorem sendAppend_examples :
    (sendAppend specDeps exLeader 1
      { exNode 3 with Matched := 1, NextIdx := 2, state := ProgressState.Replicate }).map
        (fun c => c.callback.sent.map
          (fun m => (m.To, m.LogIndex, m.LogTerm, m.Index, m.Entries.map (fun e => e.Index)))) =
      some [(3, 1, 1, 2, [2, 3])] ∧
    (sendAppend specDeps { exLeader with maxSizePerMsg := 0 } 1
      { exNode 3 with Matched := 1, NextIdx := 2, state := ProgressState.Replicate }).map
        (fun c => c.callback.sent.map
          (fun m => (m.To, m.LogIndex, m.LogTerm, m.Index, m.Entries.map (fun e => e.Index)))) =
      some [(3, 1, 1, 2, [2])] ∧
    (sendAppend specDeps exLeader 0
      { exNode 2 with Matched := 3, NextIdx := 4, state := ProgressState.Replicate }).map
        (fun c => c.callback.sent.map
          (fun m => (m.To, m.LogIndex, m.LogTerm, m.Index, m.Entries.map (fun e => e.Index)))) =
      some [(2, 3, 1, 2, [])] :=
  ⟨rfl, rfl, rfl⟩

/-! ## The role tables of `dispatch` and the two tallies -/

/-- C23: vote responses are counted only when the role matches the type of
the response.  For a node in the candidate role a `PreVoteResponse` handled by
`stepCandidate` (also through `dispatch`) changes nothing: no vote state of a
peer, not the role, not the term, and nothing is sent; the same holds for a
`VoteResponse` at a node in the pre-candidate role.  Hence no run of stale
`PreVoteResponse` messages changes the tally of a candidate. -/
theorem stepCandidate_role_mismatch (d : Deps) (c : Core) :
    (∀ msg : Message, c.state = Role.RoleCandidate →
      msg.MsgType = MessageType.MsgPreVoteResponse →
      stepCandidate d c msg = some c ∧ dispatch d c msg = some c) ∧
    (∀ msg : Message, c.state = Role.RolePrevCandidate →
      msg.MsgType = MessageType.MsgVoteResponse →
      stepCandidate d c msg = some c ∧ dispatch d c msg = some c) ∧
    (∀ msgs : List Message, c.state = Role.RoleCandidate →
      (∀ m ∈ msgs, m.MsgType = MessageType.MsgPreVoteResponse) →
      dispatchAll d c msgs = some c ∧
      ∀ c2, dispatchAll d c msgs = some c2 →
        voteStateCount c2 VoteState.VoteGranted = voteStateCount c VoteState.VoteGranted ∧
        c2.state = Role.RoleCandidate) := by
  have h1 : ∀ msg : Message, c.state = Role.RoleCandidate →
      msg.MsgType = MessageType.MsgPreVoteResponse →
      stepCandidate d c msg = some c ∧ dispatch d c msg = some c := by
    intro msg hs ht
    have e : stepCandidate d c msg = some c := by
      simp only [stepCandidate, ht, hs]
      simp
    exact ⟨e, by simp only [dispatch, hs, e]⟩
  refine ⟨h1, fun msg hs ht => ?_, fun msgs hs hall => ?_⟩
  · have e : stepCandidate d c msg = some c := by
      simp only [stepCandidate, ht, hs]
      simp
    exact ⟨e, by simp only [dispatch, hs, e]⟩
  · have hrun : dispatchAll d c msgs = some c := by
      induction msgs with
      | nil => rfl
      | cons m ms ih =>
        simp only [dispatchAll, (h1 m hs (hall m (List.mem_cons_self _ _))).2, Option.some_bind]
        exact ih (fun x hx => hall x (List.mem_cons_of_mem _ hx))
    refine ⟨hrun, fun c2 h2 => ?_⟩
    rw [hrun] at h2
    have e : c = c2 := Option.some.inj h2
    subst e
    exact ⟨rfl, hs⟩

/-- Witness of C23: the candidate `exCandidate5` receives two stale granted
pre-votes of node 2 and is as before. -/
theorem stepCandidate_role_mismatch_witness :
    dispatchAll specDeps exCandidate5
      [exMsg MessageType.MsgPreVoteResponse 2 2, exMsg MessageType.MsgPreVoteResponse 3 2] =
        some exCandidate5 :=
  ((stepCandidate_role_mismatch specDeps exCandidate5).2.2
    [exMsg MessageType.MsgPreVoteResponse 2 2, exMsg MessageType.MsgPreVoteResponse 3 2]
    rfl (by decide)).1

/-- The peers marked `Granted` and the peers marked `Rejected` are together at
most the peers. -/
theorem granted_add_rejected_le (l : List Node) :
    l.countP (fun n => n.Vote == VoteState.VoteGranted) +
      l.countP (fun n => n.Vote == VoteState.VoteReject) ≤ l.length := by
  induction l with
  | nil => simp
  | cons n rest ih =>
    simp only [List.countP_cons, List.length_cons]
    cases hv : n.Vote <;> simp <;> omega

/-- The two tallies cannot both reach the quorum. -/
theorem tallies_exclusive (c : Core) :
    ¬ (voteStateCount c VoteState.VoteGranted + 1 ≥ c.quorum ∧
      voteStateCount c VoteState.VoteReject ≥ c.quorum) := by
  have h := granted_add_rejected_le c.nodes
  rw [← voteStateCount_eq_countP, ← voteStateCount_eq_countP] at h
  unfold Core.quorum
  omega

/-- C24: granted quorum and rejected quorum are mutually exclusive.  With `n`
peers (a cluster of `n + 1` nodes, quorum `(n + 1) / 2 + 1`) and any
assignment of Pending, Granted, Rejected to the peers, it is impossible that
both the granted peers plus one reach the quorum and the rejected peers reach
the quorum; so `handleVoteResponse` gives the same outcome when it tests the
two tallies in the other order. -/
theorem quorum_tallies_exclusive (c : Core) :
    c.quorum = (c.nodes.length + 1) / 2 + 1 ∧
    ¬ (voteStateCount c VoteState.VoteGranted + 1 ≥ c.quorum ∧
      voteStateCount c VoteState.VoteReject ≥ c.quorum) ∧
    ∀ (d : Deps) (msg : Message),
      handleVoteResponseRejectFirst d c msg = handleVoteResponse d c msg := by
  refine ⟨rfl, tallies_exclusive c, fun d msg => ?_⟩
  cases hpeer : c.getNodeByID msg.From with
  | none => simp only [handleVoteResponseRejectFirst, handleVoteResponse, hpeer]
  | some node =>
    have hx := tallies_exclusive (recordVote c msg node)
    rw [handleVoteResponse_eq d c msg node hpeer]
    have e : handleVoteResponseRejectFirst d c msg =
        if voteStateCount (recordVote c msg node) VoteState.VoteReject ≥
            (recordVote c msg node).quorum then
          d.backToFollower (recordVote c msg node) msg.Term InvalidID
        else if voteStateCount (recordVote c msg node) VoteState.VoteGranted + 1 ≥
            (recordVote c msg node).quorum then
          if msg.MsgType = MessageType.MsgVoteResponse then
            (d.becomeLeader (recordVote c msg node)).bind d.broadcastVictory
          else d.campaign (recordVote c msg node)
        else some (recordVote c msg node) := by
      simp only [handleVoteResponseRejectFirst, hpeer, recordVote]
    rw [e]
    by_cases hg : voteStateCount (recordVote c msg node) VoteState.VoteGranted + 1 ≥
        (recordVote c msg node).quorum
    · have hr : ¬ (voteStateCount (recordVote c msg node) VoteState.VoteReject ≥
          (recordVote c msg node).quorum) := fun hr => hx ⟨hg, hr⟩
      rw [if_neg hr, if_pos hg, if_pos hg]
    · rw [if_neg hg, if_neg hg]

/-- The tallies of C24 on concrete clusters: with two peers (quorum 2) one
granted and one rejected peer reach the granted quorum only; with four peers
(quorum 3) two granted and two rejected peers reach the granted quorum only,
and one granted and three rejected peers the rejected quorum only. -/
theorem quorum_tallies_examples :
    (voteStateCount { exCore with nodes := [{ exNode 2 with Vote := VoteState.VoteGranted },
        { exNode 3 with Vote := VoteState.VoteReject }] } VoteState.VoteGranted + 1,
      voteStateCount { exCore with nodes := [{ exNode 2 with Vote := VoteState.VoteGranted },
        { exNode 3 with Vote := VoteState.VoteReject }] } VoteState.VoteReject,
      Core.quorum { exCore with nodes := [{ exNode 2 with Vote := VoteState.VoteGranted },
        { exNode 3 with Vote := VoteState.VoteReject }] }) = (2, 1, 2) ∧
    (voteStateCount { exCore with nodes := [{ exNode 2 with Vote := VoteState.VoteGranted },
        { exNode 3 with Vote := VoteState.VoteGranted },
        { exNode 4 with Vote := VoteState.VoteReject },
        { exNode 5 with Vote := VoteState.VoteReject }] } VoteState.VoteGranted + 1,
      voteStateCount { exCore with nodes := [{ exNode 2 with Vote := VoteState.VoteGranted },
        { exNode 3 with Vote := VoteState.VoteGranted },
        { exNode 4 with Vote := VoteState.VoteReject },
        { exNode 5 with Vote := VoteState.VoteReject }] } VoteState.VoteReject,
      exCandidate5.quorum) = (3, 2, 3) ∧
    (voteStateCount { exCore with nodes := [{ exNode 2 with Vote := VoteState.VoteGranted },
        { exNode 3 with Vote := VoteState.VoteReject },
        { exNode 4 with Vote := VoteState.VoteReject },
        { exNode 5 with Vote := VoteState.VoteReject }] } VoteState.VoteGranted + 1,
      voteStateCount { exCore with nodes := [{ exNode 2 with Vote := VoteState.VoteGranted },
        { exNode 3 with Vote := VoteState.VoteReject },
        { exNode 4 with Vote := VoteState.VoteReject },
        { exNode 5 with Vote := VoteState.VoteReject }] } VoteState.VoteReject,
      exCandidate5.quorum) = (2, 3, 3) := by
  decide

/-- C25: `dispatch` ignores the message types outside the table of the role.
At a leader an `AppendRequest`, `HeartbeatRequest`, `SnapshotRequest`,
`VoteResponse`, `PreVoteResponse` or `ReadIndexResponse` leaves the whole
state unchanged and sends nothing; at a follower the same holds for an
`AppendResponse`, `HeartbeatResponse`, `SnapshotResponse`, `VoteResponse`,
`PreVoteResponse`, `Unreachable` or `ReadIndexRequest`.  The term of the
message is not looked at. -/
theorem dispatch_ignores (d : Deps) (c : Core) (msg : Message) :
    (c.state = Role.RoleLeader →
      msg.MsgType ∈ [MessageType.MsgAppendRequest, MessageType.MsgHeartbeatRequest,
        MessageType.MsgSnapshotRequest, MessageType.MsgVoteResponse,
        MessageType.MsgPreVoteResponse, MessageType.MsgReadIndexResponse] →
      dispatch d c msg = some c) ∧
    (c.state = Role.RoleFollower →
      msg.MsgType ∈ [MessageType.MsgAppendResponse, MessageType.MsgHeartbeatResponse,
        MessageType.MsgSnapshotResponse, MessageType.MsgVoteResponse,
        MessageType.MsgPreVoteResponse, MessageType.MsgUnreachable,
        MessageType.MsgReadIndexRequest] →
      dispatch d c msg = some c) := by
  refine ⟨fun hs ht => ?_, fun hs ht => ?_⟩
  · simp only [List.mem_cons, List.mem_singleton, List.not_mem_nil, or_false] at ht
    rcases ht with ht | ht | ht | ht | ht | ht <;> simp only [dispatch, hs, stepLeader, ht]
  · simp only [List.mem_cons, List.mem_singleton, List.not_mem_nil, or_false] at ht
    rcases ht with ht | ht | ht | ht | ht | ht | ht <;>
      simp only [dispatch, hs, stepFollower, ht]

/-- Witness of C25: the leader `exLeader` ignores an `AppendRequest` of node 2
at its own term, and the follower `exCore` ignores an `AppendResponse`. -/
theorem dispatch_ignores_witness :
    dispatch specDeps exLeader (exMsg MessageType.MsgAppendRequest 2 1) = some exLeader ∧
    dispatch specDeps exCore (exMsg MessageType.MsgAppendResponse 2 1) = some exCore :=
  ⟨(dispatch_ignores specDeps exLeader (exMsg MessageType.MsgAppendRequest 2 1)).1 rfl
      (by decide),
    (dispatch_ignores specDeps exCore (exMsg MessageType.MsgAppendResponse 2 1)).2 rfl
      (by decide)⟩

/-- With the log holder as the specification describes it, a dense log has a
non-empty slice from every index between its first and its last index: an
append for a peer with `firstIndex ≤ NextIdx ≤ lastIndex` always has entries
to carry. -/
theorem spec_Slice_nonempty (l : RaftLog) (hd : l.dense) (lo hi : Nat)
    (h1 : specDeps.FirstIndex l ≤ lo) (h2 : lo ≤ specDeps.LastIndex l)
    (h3 : specDeps.LastIndex l < hi) : specDeps.Slice l lo hi ≠ [] := by
  have hf : l.snapshot.Index + 1 ≤ lo := h1
  have hl : lo ≤ l.snapshot.Index + l.entries.length := h2
  have hh : l.snapshot.Index + l.entries.length < hi := h3
  have hk : lo - (l.snapshot.Index + 1) < l.entries.length := by omega
  have hidx := hd (lo - (l.snapshot.Index + 1)) hk
  have hmem : l.entries.get ⟨lo - (l.snapshot.Index + 1), hk⟩ ∈
      l.entries.filter (fun e => decide (lo ≤ e.Index) && decide (e.Index < hi)) := by
    refine List.mem_filter.mpr ⟨List.get_mem _ _ _, ?_⟩
    simp only [Bool.and_eq_true, decide_eq_true_eq]
    omega
  intro he
  have hs : specDeps.Slice l lo hi =
      l.entries.filter (fun e => decide (lo ≤ e.Index) && decide (e.Index < hi)) := rfl
  rw [hs] at he
  rw [he] at hmem
  exact absurd hmem (List.not_mem_nil _)

/-- The log `exLog3` is dense. -/
theorem exLog3_dense : exLog3.dense := by
  intro k h
  have hk : k < 3 := h
  interval_cases k <;> rfl

end Bior
